import Mathlib

/-!
Verification of the draw-selection engine of the lottery runner
(`python/lottery.py`).  The Python source is shallowly embedded: the
dict-based records become structures, Python `int` becomes `Int`,
Python sets become lists queried by membership, and the two calls into
the `random` module (`random.randint`, `random.sample`) become an
injected `Rng` record of functions together with a well-formedness
predicate capturing exactly what those library functions guarantee
(`randint lo hi ∈ [lo, hi]`; `sample pool n` is a length-`n` prefix of
some permutation of `pool`).  The mutable `state` dict is threaded
explicitly: `draw_prize` returns `Except (String × DrawState)
(List WinnerRecord × DrawState)`, the error branch carrying the state
as the Python code leaves it when it raises `ValueError` (only the
lazy `setdefault` initialisations have happened by then).  Timestamps
(`utc_now()`) are an external clock input, passed in as the `now`
argument; the float field `spin_speed_ratio` is not consumed by the
engine and is omitted.
-/

/-- The `Person` dataclass of `lottery.py`. -/
structure Person where
  person_id : String
  name : String
  department : String
  deriving DecidableEq, Repr

/-- The `PrizeConfig` dataclass of `lottery.py` (without the UI-only
`spin_speed_ratio` float, which `draw_prize` never reads). -/
structure PrizeConfig where
  prize_id : String
  name : String
  count : Int
  exclude_previous_winners : Bool
  exclude_must_win : Bool
  exclude_excluded_list : Bool
  must_win_ids : List String
  deriving DecidableEq, Repr

/-- A winner entry as built inside `draw_prize` (a Python dict with
these exact keys). -/
structure WinnerRecord where
  timestamp : String
  prize_id : String
  prize_name : String
  person_id : String
  person_name : String
  department : String
  source : String
  deriving DecidableEq, Repr

/-- The mutable `state` dict: `winners` is the global chronological
list, `prizes` the insertion-ordered dict from prize id to the
per-prize winner id list (modelled as an association list, as Python
dicts preserve insertion order and `setdefault` appends at the end). -/
structure DrawState where
  winners : List WinnerRecord
  prizes : List (String × List String)
  deriving DecidableEq, Repr

/-- Reading `state["prizes"].get(pid, {"winners": []})["winners"]` -- the
winner list recorded for a prize, empty when the key is absent. -/
def getPrizeWinners (st : DrawState) (pid : String) : List String :=
  (st.prizes.lookup pid).getD []

/-- Python `state["prizes"].setdefault(pid, {"winners": []})`: inserts an
empty entry at the end when the key is absent, otherwise no-op. -/
def setdefaultPrize (st : DrawState) (pid : String) : DrawState :=
  if (st.prizes.lookup pid).isSome then st
  else { st with prizes := st.prizes ++ [(pid, [])] }

/-- Function `remaining_slots(prize, state)` of `lottery.py`: lazily initialises
the per-prize entry (a side effect, hence the returned state) and
yields `prize.count - len(prize_state["winners"])`. -/
def remaining_slots (prize : PrizeConfig) (st : DrawState) : Int × DrawState :=
  let st1 := setdefaultPrize st prize.prize_id
  (prize.count - ((getPrizeWinners st1 prize.prize_id).length : Int), st1)

/-- Python `sum(remaining_slots(item, state) for item in prizes)` -- the
generator evaluates left to right, each call mutating the state. -/
def sumRemainingSlots : List PrizeConfig → DrawState → Int × DrawState
  | [], st => (0, st)
  | p :: rest, st =>
    let r := remaining_slots p st
    let s := sumRemainingSlots rest r.2
    (r.1 + s.1, s.2)

/-- Function `build_global_must_win(prizes)` of `lottery.py` (as a list; only
membership is ever consulted). -/
def build_global_must_win (prizes : List PrizeConfig) : List String :=
  prizes.foldl (fun acc p => acc ++ p.must_win_ids) []

/-- The winner dict literal built at each selection site of
`draw_prize`. -/
def mkRecord (now : String) (prize : PrizeConfig) (p : Person) (src : String) : WinnerRecord :=
  { timestamp := now, prize_id := prize.prize_id, prize_name := prize.name,
    person_id := p.person_id, person_name := p.name, department := p.department,
    source := src }

/-- Assignment `excluded_must_win = (global_must_win if prize.exclude_must_win
else set()) - set(prize.must_win_ids)` (lines 364-365). -/
def excluded_must_win_set (prize : PrizeConfig) (global_must_win : List String) : List String :=
  (if prize.exclude_must_win then global_must_win else []).filter
    (fun x => !(prize.must_win_ids.contains x))

/-- The `eligible_people` comprehension of `draw_prize` (lines
367-374). -/
def eligiblePeopleDef (people : List Person)
    (excluded_winners excluded_must_win existing_prize_winners exclusion_blocklist :
      List String) : List Person :=
  people.filter (fun p =>
    !(excluded_winners.contains p.person_id) &&
    !(excluded_must_win.contains p.person_id) &&
    !(existing_prize_winners.contains p.person_id) &&
    !(exclusion_blocklist.contains p.person_id))

/-- The injected source of randomness: `random.randint` and
`random.sample`. -/
structure Rng where
  randint : Int → Int → Int
  sample : List Person → Nat → List Person

/-- What the Python `random` module guarantees about the two calls the
engine makes: `randint lo hi` lies in `[lo, hi]` whenever `lo ≤ hi`,
and `sample pool n` (for `n ≤ len pool`) is the `n`-prefix of some
permutation of `pool` (sampling without replacement at distinct
positions). -/
def Rng.Wf (r : Rng) : Prop :=
  (∀ lo hi : Int, lo ≤ hi → lo ≤ r.randint lo hi ∧ r.randint lo hi ≤ hi) ∧
  (∀ pool n, n ≤ pool.length → ∃ l, pool.Perm l ∧ r.sample pool n = l.take n)

/-- A concrete deterministic instance (always the minimum, always the
pool prefix), used to instantiate theorems at concrete inputs. -/
def defaultRng : Rng where
  randint := fun lo _ => lo
  sample := fun pool n => pool.take n

theorem defaultRng_wf : defaultRng.Wf := by
  constructor
  · intro lo hi h
    exact ⟨le_refl lo, h⟩
  · intro pool n _
    exact ⟨pool, List.Perm.refl pool, rfl⟩

/-- The guaranteed phase (lines 380-403 of `lottery.py`): walk
`prize.must_win_ids` in order, skipping ids that already won this
prize, ids blocked by the active blocklist gate, and ids absent from
the roster; stop as soon as the slot budget is reached.  Returns the
`selected` records plus `excluded_selected_count`. -/
def mustWinPhase (now : String) (prize : PrizeConfig) (people : List Person)
    (existing_prize_winners : List String) (exclude_excluded_list : Bool)
    (excluded_ids : List String) (remaining : Int) :
    List String → List WinnerRecord → Nat → List WinnerRecord × Nat
  | [], selected, excluded_selected_count => (selected, excluded_selected_count)
  | must_id :: rest, selected, excluded_selected_count =>
    if remaining ≤ (selected.length : Int) then (selected, excluded_selected_count)
    else if existing_prize_winners.contains must_id then
      mustWinPhase now prize people existing_prize_winners exclude_excluded_list
        excluded_ids remaining rest selected excluded_selected_count
    else if exclude_excluded_list && excluded_ids.contains must_id then
      mustWinPhase now prize people existing_prize_winners exclude_excluded_list
        excluded_ids remaining rest selected excluded_selected_count
    else
      match people.find? (fun p => p.person_id == must_id) with
      | none =>
        mustWinPhase now prize people existing_prize_winners exclude_excluded_list
          excluded_ids remaining rest selected excluded_selected_count
      | some m =>
        mustWinPhase now prize people existing_prize_winners exclude_excluded_list
          excluded_ids remaining rest (selected ++ [mkRecord now prize m "must_win"])
          (if excluded_ids.contains m.person_id then excluded_selected_count + 1
           else excluded_selected_count)

/-- All quantities the constrained ("blocklist quota") branch computes
before its feasibility checks (lines 412-472 of `lottery.py`).  `st2`
is the state after the `total_remaining_slots` generator ran its
lazy `remaining_slots` initialisations. -/
structure CParams where
  total_remaining_slots : Int
  st2 : DrawState
  remaining_slots_after : Int
  existing_applicable_total : Nat
  existing_excluded_total : Nat
  min_excluded : Int
  max_excluded : Option Int
  current_excluded_total : Int
  excluded_pool : List Person
  non_excluded_pool : List Person
  min_needed_total : Int
  min_needed_in_current : Int
  max_additional_excluded : Int
  min_non_excluded_needed : Int
  min_excluded_allowed : Int
  max_excluded_allowed : Int

/-- Computation of the constrained-mode quantities, mirroring lines
412-472 (`remaining` here is the Python `remaining` after line 405,
i.e. the random-phase slot budget). -/
def cparams (excluded_ids : List String) (eligible_people : List Person)
    (selected_ids : List String) (excluded_selected_count : Nat) (remaining : Int)
    (range_min range_max : Option Int) (prizesList : List PrizeConfig)
    (st : DrawState) : CParams :=
  let prizeIds := prizesList.map (fun item => item.prize_id)
  let trs := sumRemainingSlots prizesList st
  let remaining_slots_after := trs.1 - remaining
  let existing_applicable_total :=
    (trs.2.winners.filter (fun entry => prizeIds.contains entry.prize_id)).length
  let existing_excluded_total :=
    (trs.2.winners.filter (fun entry =>
      excluded_ids.contains entry.person_id && prizeIds.contains entry.prize_id)).length
  let min_excluded := range_min.getD 0
  let current_excluded_total : Int :=
    (existing_excluded_total : Int) + (excluded_selected_count : Int)
  let excluded_pool := eligible_people.filter (fun p =>
    excluded_ids.contains p.person_id && !(selected_ids.contains p.person_id))
  let non_excluded_pool := eligible_people.filter (fun p =>
    !(excluded_ids.contains p.person_id) && !(selected_ids.contains p.person_id))
  let min_needed_total := max (min_excluded - current_excluded_total) 0
  let min_needed_in_current := max (min_needed_total - remaining_slots_after) 0
  let max_additional_excluded :=
    match range_max with
    | some m => m - current_excluded_total
    | none => remaining
  let min_non_excluded_needed := max (remaining - (excluded_pool.length : Int)) 0
  let mea0 := min (min max_additional_excluded (remaining - min_non_excluded_needed))
    ((excluded_pool.length : Int))
  let min_excluded_allowed := min_needed_in_current
  let max_excluded_allowed :=
    if existing_applicable_total = 0 ∧ ¬non_excluded_pool.isEmpty = true ∧
        min_excluded_allowed < remaining
    then min mea0 (remaining - 1) else mea0
  { total_remaining_slots := trs.1, st2 := trs.2,
    remaining_slots_after := remaining_slots_after,
    existing_applicable_total := existing_applicable_total,
    existing_excluded_total := existing_excluded_total,
    min_excluded := min_excluded, max_excluded := range_max,
    current_excluded_total := current_excluded_total,
    excluded_pool := excluded_pool, non_excluded_pool := non_excluded_pool,
    min_needed_total := min_needed_total,
    min_needed_in_current := min_needed_in_current,
    max_additional_excluded := max_additional_excluded,
    min_non_excluded_needed := min_non_excluded_needed,
    min_excluded_allowed := min_excluded_allowed,
    max_excluded_allowed := max_excluded_allowed }

/-- The constrained (blocklist-quota) random phase: the validation
chain of lines 412-482 in source order, then the two
`random.sample` draws.  Every `ValueError` of the source becomes an
`Except.error` carrying the message and the state as mutated so far
(`c.st2`, since the `setdefault` side effects of the slot sum have
already happened when the code raises). -/
def constrainedChecks (now : String) (prize : PrizeConfig) (excluded_ids : List String)
    (remaining : Int) (rng : Rng) (c : CParams) :
    Except (String × DrawState) (List WinnerRecord × DrawState) :=
  if c.min_excluded < 0 then
    .error ("排除名单最小中奖人数不能为负数。", c.st2)
  else if c.max_excluded.isSome ∧ c.max_excluded.getD 0 < 0 then
    .error ("排除名单最大中奖人数不能为负数。", c.st2)
  else if c.max_excluded.isSome ∧ c.max_excluded.getD 0 < c.min_excluded then
    .error ("排除名单最大中奖人数不能小于最小值。", c.st2)
  else if c.max_excluded.isSome ∧ c.max_excluded.getD 0 < c.current_excluded_total then
    .error ("排除名单中奖人数已超过最大限制。", c.st2)
  else if c.min_needed_in_current > remaining then
    .error ("排除名单最小中奖人数超过可抽取名额。", c.st2)
  else if c.min_needed_in_current > (c.excluded_pool.length : Int) then
    .error ("排除名单人数不足，无法满足最小中奖人数要求。", c.st2)
  else if c.max_excluded.isSome ∧ c.max_additional_excluded < 0 then
    .error ("排除名单中奖人数已超过最大限制。", c.st2)
  else if c.min_excluded_allowed > c.max_excluded_allowed then
    .error ("候选人不足，无法满足排除名单中奖人数范围。", c.st2)
  else
    let excluded_count :=
      if c.min_excluded_allowed = c.max_excluded_allowed then c.min_excluded_allowed
      else rng.randint c.min_excluded_allowed c.max_excluded_allowed
    let non_excluded_needed := remaining - excluded_count
    if non_excluded_needed > (c.non_excluded_pool.length : Int) then
      .error ("非排除名单人数不足，无法满足最大中奖人数限制。", c.st2)
    else
      let exSel :=
        if excluded_count = 0 then []
        else (rng.sample c.excluded_pool excluded_count.toNat).map
          (fun p => mkRecord now prize p "random")
      let nonSel :=
        if non_excluded_needed = 0 then []
        else (rng.sample c.non_excluded_pool non_excluded_needed.toNat).map
          (fun p => mkRecord now prize p "random")
      .ok (exSel ++ nonSel, c.st2)

/-- The constrained phase proper: compute the parameters, then run the
validation/sampling chain. -/
def constrainedPhase (now : String) (prize : PrizeConfig) (excluded_ids : List String)
    (eligible_people : List Person) (selected_ids : List String)
    (excluded_selected_count : Nat) (remaining : Int)
    (range_min range_max : Option Int) (prizesList : List PrizeConfig)
    (st : DrawState) (rng : Rng) :
    Except (String × DrawState) (List WinnerRecord × DrawState) :=
  constrainedChecks now prize excluded_ids remaining rng
    (cparams excluded_ids eligible_people selected_ids excluded_selected_count
      remaining range_min range_max prizesList st)

/-- The simple random phase (lines 514-530): shrink the request to the
pool size and sample. -/
def simplePhase (now : String) (prize : PrizeConfig) (eligible_people : List Person)
    (selected_ids : List String) (remaining : Int) (rng : Rng) : List WinnerRecord :=
  let random_pool := eligible_people.filter (fun p => !(selected_ids.contains p.person_id))
  let remaining2 := if remaining > (random_pool.length : Int)
    then (random_pool.length : Int) else remaining
  (rng.sample random_pool remaining2.toNat).map (fun p => mkRecord now prize p "random")

/-- Everything `draw_prize` computes deterministically before the
random phase: the lazily initialised state, the exclusion sets, the
eligible pool, the guaranteed-phase output and the slot budgets. -/
structure DrawCtx where
  st1 : DrawState
  existing_prize_winners : List String
  remaining0 : Int
  remaining : Int
  exclude_excluded_list : Bool
  exclusion_blocklist : List String
  excluded_winners : List String
  excluded_must_win : List String
  eligible_people : List Person
  selected1 : List WinnerRecord
  excluded_selected_count : Nat
  selected_ids1 : List String
  remaining2 : Int

/-- The deterministic prefix of `draw_prize` (lines 345-405). -/
def drawCtx (prize : PrizeConfig) (people : List Person) (st0 : DrawState)
    (global_must_win : List String) (excluded_ids : List String)
    (include_excluded : Bool) (draw_count : Option Int) (now : String) : DrawCtx :=
  let st1 := setdefaultPrize st0 prize.prize_id
  let existing_prize_winners := getPrizeWinners st1 prize.prize_id
  let existing_global_winners := st1.winners.map (fun w => w.person_id)
  let exclude_excluded_list := prize.exclude_excluded_list && !include_excluded
  let exclusion_blocklist := if exclude_excluded_list then excluded_ids else []
  let remaining0 := (remaining_slots prize st1).1
  let remaining := min remaining0 (draw_count.getD remaining0)
  let excluded_winners := if prize.exclude_previous_winners then existing_global_winners else []
  let emw := excluded_must_win_set prize global_must_win
  let eligible := eligiblePeopleDef people excluded_winners emw existing_prize_winners
    exclusion_blocklist
  let mw := mustWinPhase now prize people existing_prize_winners exclude_excluded_list
    excluded_ids remaining prize.must_win_ids [] 0
  { st1 := st1, existing_prize_winners := existing_prize_winners,
    remaining0 := remaining0, remaining := remaining,
    exclude_excluded_list := exclude_excluded_list,
    exclusion_blocklist := exclusion_blocklist,
    excluded_winners := excluded_winners, excluded_must_win := emw,
    eligible_people := eligible, selected1 := mw.1,
    excluded_selected_count := mw.2,
    selected_ids1 := mw.1.map (fun r => r.person_id),
    remaining2 := remaining - (mw.1.length : Int) }

/-- The commit loop (lines 532-534): append every selected record to
`state["winners"]` and its id to this prize's winner list. -/
def commitState (st : DrawState) (pid : String) (sel : List WinnerRecord) : DrawState :=
  { winners := st.winners ++ sel,
    prizes := st.prizes.map (fun kv =>
      if kv.1 = pid then (kv.1, kv.2 ++ sel.map (fun r => r.person_id)) else kv) }

/-- Glue between phase 3 and the commit loop: an error propagates
unchanged (the guaranteed-phase picks are discarded, still only in the
local `selected`), a success appends the guaranteed picks and the
random picks and commits them all in one loop. -/
def commitResult (pid : String) (selected1 : List WinnerRecord) :
    Except (String × DrawState) (List WinnerRecord × DrawState) →
      Except (String × DrawState) (List WinnerRecord × DrawState)
  | .error e => .error e
  | .ok (sel3, stP) => .ok (selected1 ++ sel3, commitState stP pid (selected1 ++ sel3))

/-- Function `draw_prize` of `lottery.py` (lines 334-536).  Mirrors the source
control flow: lazy `setdefault`, the `remaining <= 0` early return,
the negative `draw_count` check, the guaranteed phase, then either the
constrained or the simple random phase, and finally the single commit
loop.  An `Except.error` carries the message of the corresponding
`raise ValueError` together with the state as the caller observes it
afterwards. -/
def draw_prize (prize : PrizeConfig) (people : List Person) (st0 : DrawState)
    (global_must_win : List String) (excluded_ids : List String)
    (include_excluded : Bool)
    (excluded_winner_range : Option (Option Int × Option Int))
    (prizesArg : Option (List PrizeConfig))
    (draw_count : Option Int) (rng : Rng) (now : String) :
    Except (String × DrawState) (List WinnerRecord × DrawState) :=
  let c := drawCtx prize people st0 global_must_win excluded_ids include_excluded
    draw_count now
  if c.remaining0 ≤ 0 then .ok ([], c.st1)
  else if draw_count.getD 0 < 0 then .error ("抽奖人数不能为负数。", c.st1)
  else
    let phase3 : Except (String × DrawState) (List WinnerRecord × DrawState) :=
      if c.remaining2 > 0 then
        match excluded_winner_range, prizesArg, include_excluded with
        | some (rmin, rmax), some ps, false =>
          constrainedPhase now prize excluded_ids c.eligible_people c.selected_ids1
            c.excluded_selected_count c.remaining2 rmin rmax ps c.st1 rng
        | _, _, _ =>
          .ok (simplePhase now prize c.eligible_people c.selected_ids1 c.remaining2 rng,
            c.st1)
      else .ok ([], c.st1)
    commitResult prize.prize_id c.selected1 phase3

/-! ### Association-list and state-threading lemmas -/

theorem lookup_append_some {β : Type} {l l2 : List (String × β)} {q : String} {w : β}
    (h : l.lookup q = some w) : (l ++ l2).lookup q = some w := by
  induction l with
  | nil => simp [List.lookup] at h
  | cons kv rest ih =>
    obtain ⟨k, b⟩ := kv
    by_cases hq : q = k
    · subst hq
      simp only [List.cons_append, List.lookup, beq_self_eq_true] at h ⊢
      exact h
    · have hb : (q == k) = false := beq_eq_false_iff_ne.mpr hq
      simp only [List.cons_append, List.lookup, hb] at h ⊢
      exact ih h

theorem lookup_append_none {β : Type} {l : List (String × β)} {q : String}
    (h : l.lookup q = none) (l2 : List (String × β)) :
    (l ++ l2).lookup q = l2.lookup q := by
  induction l with
  | nil => simp
  | cons kv rest ih =>
    obtain ⟨k, b⟩ := kv
    by_cases hq : q = k
    · subst hq
      simp only [List.lookup, beq_self_eq_true] at h
      exact Option.noConfusion h
    · have hb : (q == k) = false := beq_eq_false_iff_ne.mpr hq
      simp only [List.lookup, hb] at h
      simp only [List.cons_append, List.lookup, hb]
      exact ih h

theorem lookup_singleton {β : Type} (k q : String) (v : β) :
    ([(k, v)] : List (String × β)).lookup q = if q = k then some v else none := by
  by_cases hq : q = k
  · subst hq
    simp [List.lookup]
  · have hb : (q == k) = false := beq_eq_false_iff_ne.mpr hq
    simp only [List.lookup, hb, if_neg hq]

theorem sdp_winners (st : DrawState) (pid : String) :
    (setdefaultPrize st pid).winners = st.winners := by
  unfold setdefaultPrize
  split <;> rfl

theorem sdp_lookup_of_some {st : DrawState} {q : String} {w : List String} (pid : String)
    (h : st.prizes.lookup q = some w) :
    (setdefaultPrize st pid).prizes.lookup q = some w := by
  unfold setdefaultPrize
  split
  · exact h
  · exact lookup_append_some h

theorem sdp_lookup_inv {st : DrawState} {pid q : String} {w : List String}
    (h : (setdefaultPrize st pid).prizes.lookup q = some w) :
    st.prizes.lookup q = some w ∨ (q = pid ∧ w = []) := by
  unfold setdefaultPrize at h
  split at h
  · exact Or.inl h
  · have h2 : (st.prizes ++ [(pid, [])]).lookup q = some w := h
    cases hl : st.prizes.lookup q with
    | some v =>
      rw [lookup_append_some hl] at h2
      exact Or.inl h2
    | none =>
      rw [lookup_append_none hl, lookup_singleton] at h2
      by_cases hq : q = pid
      · rw [if_pos hq] at h2
        exact Or.inr ⟨hq, (Option.some_inj.mp h2).symm⟩
      · rw [if_neg hq] at h2
        exact Option.noConfusion h2

theorem sdp_lookup_self (st : DrawState) (pid : String) :
    (setdefaultPrize st pid).prizes.lookup pid = some (getPrizeWinners st pid) := by
  unfold setdefaultPrize getPrizeWinners
  cases hl : st.prizes.lookup pid with
  | some v => simp [hl]
  | none =>
    rw [if_neg (by simp [hl])]
    show (st.prizes ++ [(pid, [])]).lookup pid = _
    rw [lookup_append_none hl, lookup_singleton, if_pos rfl]
    rfl

theorem sdp_get (st : DrawState) (pid q : String) :
    getPrizeWinners (setdefaultPrize st pid) q = getPrizeWinners st q := by
  unfold setdefaultPrize
  cases hl : st.prizes.lookup pid with
  | some v => simp [hl]
  | none =>
    rw [if_neg (by simp [hl])]
    unfold getPrizeWinners
    show ((st.prizes ++ [(pid, [])]).lookup q).getD [] = _
    cases hq : st.prizes.lookup q with
    | some w => rw [lookup_append_some hq]
    | none =>
      rw [lookup_append_none hq, lookup_singleton]
      by_cases hqp : q = pid
      · rw [if_pos hqp]
        rfl
      · rw [if_neg hqp]

theorem srs_winners (ps : List PrizeConfig) (st : DrawState) :
    (sumRemainingSlots ps st).2.winners = st.winners := by
  induction ps generalizing st with
  | nil => rfl
  | cons p rest ih =>
    show (sumRemainingSlots rest (setdefaultPrize st p.prize_id)).2.winners = st.winners
    rw [ih, sdp_winners]

theorem srs_lookup_of_some {st : DrawState} {q : String} {w : List String}
    (ps : List PrizeConfig) (h : st.prizes.lookup q = some w) :
    (sumRemainingSlots ps st).2.prizes.lookup q = some w := by
  induction ps generalizing st with
  | nil => exact h
  | cons p rest ih =>
    exact ih (sdp_lookup_of_some p.prize_id h)

theorem srs_lookup_inv {q : String} {w : List String} (ps : List PrizeConfig)
    (st : DrawState)
    (h : (sumRemainingSlots ps st).2.prizes.lookup q = some w) :
    st.prizes.lookup q = some w ∨
      (q ∈ ps.map (fun item => item.prize_id) ∧ w = []) := by
  induction ps generalizing st with
  | nil => exact Or.inl h
  | cons p rest ih =>
    rcases ih (setdefaultPrize st p.prize_id) h with h1 | h2
    · rcases sdp_lookup_inv h1 with h3 | h4
      · exact Or.inl h3
      · exact Or.inr ⟨by simp [h4.1], h4.2⟩
    · exact Or.inr ⟨by simp [h2.1], h2.2⟩

theorem srs_get (ps : List PrizeConfig) (st : DrawState) (q : String) :
    getPrizeWinners (sumRemainingSlots ps st).2 q = getPrizeWinners st q := by
  induction ps generalizing st with
  | nil => rfl
  | cons p rest ih =>
    show getPrizeWinners (sumRemainingSlots rest (setdefaultPrize st p.prize_id)).2 q = _
    rw [ih, sdp_get]

theorem commit_winners (st : DrawState) (pid : String) (sel : List WinnerRecord) :
    (commitState st pid sel).winners = st.winners ++ sel := rfl

theorem commit_lookup (st : DrawState) (pid q : String) (sel : List WinnerRecord) :
    (commitState st pid sel).prizes.lookup q =
      (st.prizes.lookup q).map (fun w =>
        if q = pid then w ++ sel.map (fun r => r.person_id) else w) := by
  show (st.prizes.map _).lookup q = _
  induction st.prizes with
  | nil => rfl
  | cons kv rest ih =>
    obtain ⟨k, b⟩ := kv
    rw [List.map_cons]
    by_cases hk : k = pid
    · rw [show (if (k, b).1 = pid then ((k, b).1, (k, b).2 ++ sel.map (fun r => r.person_id))
          else (k, b)) = (k, b ++ sel.map (fun r => r.person_id)) from by rw [if_pos hk]]
      by_cases hq : q = k
      · subst hq
        simp only [List.lookup, beq_self_eq_true, Option.map_some']
        rw [if_pos hk]
      · have hb : (q == k) = false := beq_eq_false_iff_ne.mpr hq
        simp only [List.lookup, hb]
        exact ih
    · rw [show (if (k, b).1 = pid then ((k, b).1, (k, b).2 ++ sel.map (fun r => r.person_id))
          else (k, b)) = (k, b) from by rw [if_neg hk]]
      by_cases hq : q = k
      · subst hq
        simp only [List.lookup, beq_self_eq_true, Option.map_some']
        rw [if_neg hk]
      · have hb : (q == k) = false := beq_eq_false_iff_ne.mpr hq
        simp only [List.lookup, hb]
        exact ih

theorem commit_get_self (st : DrawState) (pid : String) (sel : List WinnerRecord)
    {w : List String} (h : st.prizes.lookup pid = some w) :
    getPrizeWinners (commitState st pid sel) pid = w ++ sel.map (fun r => r.person_id) := by
  unfold getPrizeWinners
  rw [commit_lookup, h]
  simp

theorem commit_get_other (st : DrawState) (pid q : String) (sel : List WinnerRecord)
    (h : q ≠ pid) :
    getPrizeWinners (commitState st pid sel) q = getPrizeWinners st q := by
  unfold getPrizeWinners
  rw [commit_lookup]
  cases st.prizes.lookup q with
  | none => rfl
  | some w => simp [if_neg h]

/-! ### Membership helpers -/

theorem contains_true_iff {l : List String} {a : String} :
    l.contains a = true ↔ a ∈ l := List.elem_iff

theorem contains_false_iff {l : List String} {a : String} :
    l.contains a = false ↔ a ∉ l := by
  constructor
  · intro h hm
    rw [contains_true_iff.mpr hm] at h
    cases h
  · intro h
    cases hc : l.contains a
    · rfl
    · exact absurd (contains_true_iff.mp hc) h

/-! ### Guaranteed-phase lemmas -/

theorem mwp_mem_mono (now : String) (prize : PrizeConfig) (people : List Person)
    (epw : List String) (eel : Bool) (exids : List String) (remaining : Int)
    (ids : List String) (selected : List WinnerRecord) (cnt : Nat)
    {r : WinnerRecord} (h : r ∈ selected) :
    r ∈ (mustWinPhase now prize people epw eel exids remaining ids selected cnt).1 := by
  induction ids generalizing selected cnt with
  | nil => exact h
  | cons a rest ih =>
    by_cases hbr : remaining ≤ (selected.length : Int)
    · simp only [mustWinPhase, if_pos hbr]
      exact h
    · simp only [mustWinPhase, if_neg hbr]
      by_cases h1 : epw.contains a = true
      · simp only [if_pos h1]
        exact ih selected cnt h
      · simp only [if_neg h1]
        by_cases h2 : (eel && exids.contains a) = true
        · simp only [if_pos h2]
          exact ih selected cnt h
        · simp only [if_neg h2]
          cases hf : people.find? (fun p => p.person_id == a) with
          | none => exact ih selected cnt h
          | some m =>
            exact ih (selected ++ [mkRecord now prize m "must_win"]) _
              (List.mem_append_left _ h)

theorem mwp_length_le (now : String) (prize : PrizeConfig) (people : List Person)
    (epw : List String) (eel : Bool) (exids : List String) (remaining : Int)
    (ids : List String) (selected : List WinnerRecord) (cnt : Nat)
    (h : (selected.length : Int) ≤ remaining) :
    (((mustWinPhase now prize people epw eel exids remaining ids selected cnt).1).length : Int)
      ≤ remaining := by
  induction ids generalizing selected cnt with
  | nil => exact h
  | cons a rest ih =>
    by_cases hbr : remaining ≤ (selected.length : Int)
    · simp only [mustWinPhase, if_pos hbr]
      exact h
    · simp only [mustWinPhase, if_neg hbr]
      by_cases h1 : epw.contains a = true
      · simp only [if_pos h1]
        exact ih selected cnt h
      · simp only [if_neg h1]
        by_cases h2 : (eel && exids.contains a) = true
        · simp only [if_pos h2]
          exact ih selected cnt h
        · simp only [if_neg h2]
          cases hf : people.find? (fun p => p.person_id == a) with
          | none => exact ih selected cnt h
          | some m =>
            refine ih (selected ++ [mkRecord now prize m "must_win"]) _ ?_
            have : ¬(remaining ≤ (selected.length : Int)) := hbr
            simp only [List.length_append, List.length_cons, List.length_nil]
            push_cast
            omega

/-- Shape of every record the guaranteed phase produces: either it was
already in the accumulator, or it is a `must_win` record for a roster
member found by an id of the worklist that has not already won this
prize (and passed the blocklist gate). -/
theorem mwp_shape (now : String) (prize : PrizeConfig) (people : List Person)
    (epw : List String) (eel : Bool) (exids : List String) (remaining : Int)
    (ids : List String) (selected : List WinnerRecord) (cnt : Nat)
    {r : WinnerRecord}
    (h : r ∈ (mustWinPhase now prize people epw eel exids remaining ids selected cnt).1) :
    r ∈ selected ∨
      (r.source = "must_win" ∧ r.person_id ∈ ids ∧ r.person_id ∉ epw ∧
        ∃ p, p ∈ people ∧ r = mkRecord now prize p "must_win") := by
  induction ids generalizing selected cnt with
  | nil => exact Or.inl h
  | cons a rest ih =>
    by_cases hbr : remaining ≤ (selected.length : Int)
    · simp only [mustWinPhase, if_pos hbr] at h
      exact Or.inl h
    · simp only [mustWinPhase, if_neg hbr] at h
      by_cases h1 : epw.contains a = true
      · simp only [if_pos h1] at h
        rcases ih selected cnt h with h3 | h4
        · exact Or.inl h3
        · exact Or.inr ⟨h4.1, List.mem_cons_of_mem a h4.2.1, h4.2.2⟩
      · simp only [if_neg h1] at h
        by_cases h2 : (eel && exids.contains a) = true
        · simp only [if_pos h2] at h
          rcases ih selected cnt h with h3 | h4
          · exact Or.inl h3
          · exact Or.inr ⟨h4.1, List.mem_cons_of_mem a h4.2.1, h4.2.2⟩
        · simp only [if_neg h2] at h
          cases hf : people.find? (fun p => p.person_id == a) with
          | none =>
            rw [hf] at h
            rcases ih selected cnt h with h3 | h4
            · exact Or.inl h3
            · exact Or.inr ⟨h4.1, List.mem_cons_of_mem a h4.2.1, h4.2.2⟩
          | some m =>
            rw [hf] at h
            have hmid : m.person_id = a := by
              have hp := List.find?_some hf
              simpa using hp
            rcases ih (selected ++ [mkRecord now prize m "must_win"]) _ h with h3 | h4
            · rcases List.mem_append.mp h3 with h5 | h6
              · exact Or.inl h5
              · have h7 : r = mkRecord now prize m "must_win" := by
                  simpa using h6
                refine Or.inr ⟨by rw [h7]; rfl, ?_, ?_, m, List.mem_of_find?_eq_some hf, h7⟩
                · rw [h7]
                  show m.person_id ∈ a :: rest
                  rw [hmid]
                  exact List.mem_cons_self a rest
                · rw [h7]
                  show m.person_id ∉ epw
                  rw [hmid]
                  exact fun hmem => h1 (contains_true_iff.mpr hmem)
            · exact Or.inr ⟨h4.1, List.mem_cons_of_mem a h4.2.1, h4.2.2⟩

/-- The guaranteed phase never selects the same id twice as long as the
worklist itself has no duplicates. -/
theorem mwp_ids_nodup (now : String) (prize : PrizeConfig) (people : List Person)
    (epw : List String) (eel : Bool) (exids : List String) (remaining : Int)
    (ids : List String) (selected : List WinnerRecord) (cnt : Nat)
    (hids : ids.Nodup)
    (hsel : (selected.map (fun r => r.person_id)).Nodup)
    (hdisj : ∀ x ∈ ids, x ∉ selected.map (fun r => r.person_id)) :
    ((mustWinPhase now prize people epw eel exids remaining ids selected cnt).1.map
      (fun r => r.person_id)).Nodup := by
  induction ids generalizing selected cnt with
  | nil => exact hsel
  | cons a rest ih =>
    have hids2 := List.nodup_cons.mp hids
    by_cases hbr : remaining ≤ (selected.length : Int)
    · simp only [mustWinPhase, if_pos hbr]
      exact hsel
    · simp only [mustWinPhase, if_neg hbr]
      by_cases h1 : epw.contains a = true
      · simp only [if_pos h1]
        exact ih selected cnt hids2.2 hsel
          (fun x hx => hdisj x (List.mem_cons_of_mem a hx))
      · simp only [if_neg h1]
        by_cases h2 : (eel && exids.contains a) = true
        · simp only [if_pos h2]
          exact ih selected cnt hids2.2 hsel
            (fun x hx => hdisj x (List.mem_cons_of_mem a hx))
        · simp only [if_neg h2]
          cases hf : people.find? (fun p => p.person_id == a) with
          | none =>
            exact ih selected cnt hids2.2 hsel
              (fun x hx => hdisj x (List.mem_cons_of_mem a hx))
          | some m =>
            have hmid : m.person_id = a := by
              have hp := List.find?_some hf
              simpa using hp
            refine ih (selected ++ [mkRecord now prize m "must_win"]) _ hids2.2 ?_ ?_
            · rw [List.map_append]
              rw [List.nodup_append]
              refine ⟨hsel, by simp, ?_⟩
              intro x hx
              simp only [List.map_cons, List.map_nil, List.mem_singleton]
              intro hxa
              rw [hxa] at hx
              have hx2 : m.person_id ∈ List.map (fun r => r.person_id) selected := hx
              rw [hmid] at hx2
              exact hdisj a (List.mem_cons_self a rest) hx2
            · intro x hx
              rw [List.map_append]
              intro hmem
              rcases List.mem_append.mp hmem with h5 | h6
              · exact hdisj x (List.mem_cons_of_mem a hx) h5
              · have hxa : x = m.person_id := by simpa [mkRecord] using h6
                rw [hmid] at hxa
                rw [hxa] at hx
                exact hids2.1 hx

/-- When the budget is already used up, the phase returns the
accumulator unchanged. -/
theorem mwp_stop (now : String) (prize : PrizeConfig) (people : List Person)
    (epw : List String) (eel : Bool) (exids : List String) (remaining : Int)
    (ids : List String) (selected : List WinnerRecord) (cnt : Nat)
    (h : remaining ≤ (selected.length : Int)) :
    mustWinPhase now prize people epw eel exids remaining ids selected cnt
      = (selected, cnt) := by
  cases ids with
  | nil => rfl
  | cons a rest => simp only [mustWinPhase, if_pos h]

/-- A head id that passes all three skip checks is selected. -/
theorem mwp_select_step (now : String) (prize : PrizeConfig) (people : List Person)
    (epw : List String) (eel : Bool) (exids : List String) (remaining : Int)
    (a : String) (rest : List String) (selected : List WinnerRecord) (cnt : Nat)
    (m : Person)
    (hbr : ¬ remaining ≤ (selected.length : Int))
    (h1 : epw.contains a = false)
    (h2 : (eel && exids.contains a) = false)
    (hf : people.find? (fun p => p.person_id == a) = some m) :
    mustWinPhase now prize people epw eel exids remaining (a :: rest) selected cnt =
      mustWinPhase now prize people epw eel exids remaining rest
        (selected ++ [mkRecord now prize m "must_win"])
        (if exids.contains m.person_id then cnt + 1 else cnt) := by
  simp only [mustWinPhase, if_neg hbr, h1, h2, hf, Bool.false_eq_true, if_false]

/-! ### Sampling lemmas -/

theorem sample_spec {rng : Rng} (hwf : rng.Wf) (pool : List Person) (n : Nat)
    (hn : n ≤ pool.length) :
    (rng.sample pool n).length = n ∧
    (∀ p ∈ rng.sample pool n, p ∈ pool) ∧
    ((pool.map (fun p => p.person_id)).Nodup →
      ((rng.sample pool n).map (fun p => p.person_id)).Nodup) := by
  obtain ⟨l, hperm, heq⟩ := hwf.2 pool n hn
  have hlen : l.length = pool.length := (hperm.length_eq).symm
  refine ⟨?_, ?_, ?_⟩
  · rw [heq, List.length_take, hlen]
    exact Nat.min_eq_left hn
  · intro p hp
    rw [heq] at hp
    exact hperm.mem_iff.mpr (List.mem_of_mem_take hp)
  · intro hnd
    rw [heq, List.map_take]
    have h2 : (l.map (fun p => p.person_id)).Nodup :=
      ((hperm.map (fun p => p.person_id)).nodup_iff).mp hnd
    exact h2.sublist (List.take_sublist n (l.map (fun p => p.person_id)))

/-! ### Record-map helpers -/

theorem map_pid_mkRecord (now : String) (prize : PrizeConfig) (src : String)
    (l : List Person) :
    (l.map (fun p => mkRecord now prize p src)).map (fun r => r.person_id) =
      l.map (fun p => p.person_id) := by
  rw [List.map_map]
  rfl

theorem mkRecord_source (now : String) (prize : PrizeConfig) (src : String)
    (p : Person) : (mkRecord now prize p src).source = src := rfl

theorem filter_map_pid_nodup (f : Person → Bool) (l : List Person)
    (h : (l.map (fun p => p.person_id)).Nodup) :
    ((l.filter f).map (fun p => p.person_id)).Nodup :=
  h.sublist ((List.filter_sublist l).map (fun p => p.person_id))

/-! ### Simple-phase specification -/

theorem sp_spec (now : String) (prize : PrizeConfig) (eligible : List Person)
    (selIds : List String) (remaining : Int) {rng : Rng} (hwf : rng.Wf)
    (hrem : 0 ≤ remaining) :
    ((simplePhase now prize eligible selIds remaining rng).length : Int) =
      min remaining
        ((eligible.filter (fun p => !(selIds.contains p.person_id))).length : Int) ∧
    (∀ r ∈ simplePhase now prize eligible selIds remaining rng,
      ∃ p, p ∈ eligible ∧ selIds.contains p.person_id = false ∧
        r = mkRecord now prize p "random") ∧
    (((eligible.filter (fun p => !(selIds.contains p.person_id))).map
        (fun p => p.person_id)).Nodup →
      ((simplePhase now prize eligible selIds remaining rng).map
        (fun r => r.person_id)).Nodup) := by
  unfold simplePhase
  set pool := eligible.filter (fun p => !(selIds.contains p.person_id)) with hpool
  set rem2 := if remaining > (pool.length : Int) then (pool.length : Int) else remaining
    with hrem2
  have hrem2n : 0 ≤ rem2 := by
    rw [hrem2]
    split
    · exact Int.natCast_nonneg pool.length
    · exact hrem
  have hle : rem2.toNat ≤ pool.length := by
    rw [hrem2]
    split
    · simp
    · rename_i hgt
      push_neg at hgt
      omega
  obtain ⟨hlen, hmem, hnd⟩ := sample_spec hwf pool rem2.toNat hle
  refine ⟨?_, ?_, ?_⟩
  · rw [List.length_map, hlen]
    rw [hrem2]
    split
    · rename_i hgt
      rw [Int.toNat_natCast]
      omega
    · rename_i hgt
      push_neg at hgt
      omega
  · intro r hr
    rw [List.mem_map] at hr
    obtain ⟨p, hp, hpr⟩ := hr
    have hpp := hmem p hp
    rw [hpool, List.mem_filter] at hpp
    refine ⟨p, hpp.1, ?_, hpr.symm⟩
    have := hpp.2
    simp only [Bool.not_eq_eq_eq_not, Bool.not_true] at this
    exact this
  · intro hnodup
    rw [map_pid_mkRecord]
    exact hnd hnodup

/-! ### Constrained-phase arithmetic facts -/

theorem cparams_min_allowed_nonneg (excluded_ids : List String)
    (eligible : List Person) (selIds : List String) (cnt : Nat) (remaining : Int)
    (rmin rmax : Option Int) (ps : List PrizeConfig) (st : DrawState) :
    0 ≤ (cparams excluded_ids eligible selIds cnt remaining rmin rmax ps st
      ).min_excluded_allowed := by
  simp only [cparams]
  exact le_max_right _ _

theorem cparams_max_allowed_le_remaining (excluded_ids : List String)
    (eligible : List Person) (selIds : List String) (cnt : Nat) (remaining : Int)
    (rmin rmax : Option Int) (ps : List PrizeConfig) (st : DrawState) :
    (cparams excluded_ids eligible selIds cnt remaining rmin rmax ps st
      ).max_excluded_allowed ≤ remaining := by
  simp only [cparams]
  split <;> omega

theorem cparams_max_allowed_le_pool (excluded_ids : List String)
    (eligible : List Person) (selIds : List String) (cnt : Nat) (remaining : Int)
    (rmin rmax : Option Int) (ps : List PrizeConfig) (st : DrawState) :
    (cparams excluded_ids eligible selIds cnt remaining rmin rmax ps st
      ).max_excluded_allowed ≤
      (((cparams excluded_ids eligible selIds cnt remaining rmin rmax ps st
        ).excluded_pool).length : Int) := by
  simp only [cparams]
  split <;> omega

theorem cparams_max_allowed_cap (excluded_ids : List String)
    (eligible : List Person) (selIds : List String) (cnt : Nat) (remaining : Int)
    (rmin rmax : Option Int) (ps : List PrizeConfig) (st : DrawState)
    (h0 : (cparams excluded_ids eligible selIds cnt remaining rmin rmax ps st
      ).existing_applicable_total = 0)
    (h1 : ¬(cparams excluded_ids eligible selIds cnt remaining rmin rmax ps st
      ).non_excluded_pool.isEmpty = true)
    (h2 : (cparams excluded_ids eligible selIds cnt remaining rmin rmax ps st
      ).min_excluded_allowed < remaining) :
    (cparams excluded_ids eligible selIds cnt remaining rmin rmax ps st
      ).max_excluded_allowed ≤ remaining - 1 := by
  simp only [cparams] at h0 h1 h2 ⊢
  rw [if_pos ⟨h0, h1, h2⟩]
  omega

theorem cparams_st2 (excluded_ids : List String) (eligible : List Person)
    (selIds : List String) (cnt : Nat) (remaining : Int) (rmin rmax : Option Int)
    (ps : List PrizeConfig) (st : DrawState) :
    (cparams excluded_ids eligible selIds cnt remaining rmin rmax ps st).st2 =
      (sumRemainingSlots ps st).2 := by
  simp only [cparams]

theorem cparams_excluded_pool (excluded_ids : List String) (eligible : List Person)
    (selIds : List String) (cnt : Nat) (remaining : Int) (rmin rmax : Option Int)
    (ps : List PrizeConfig) (st : DrawState) :
    (cparams excluded_ids eligible selIds cnt remaining rmin rmax ps st).excluded_pool =
      eligible.filter (fun p =>
        excluded_ids.contains p.person_id && !(selIds.contains p.person_id)) := by
  simp only [cparams]

theorem cparams_non_excluded_pool (excluded_ids : List String) (eligible : List Person)
    (selIds : List String) (cnt : Nat) (remaining : Int) (rmin rmax : Option Int)
    (ps : List PrizeConfig) (st : DrawState) :
    (cparams excluded_ids eligible selIds cnt remaining rmin rmax ps st
      ).non_excluded_pool =
      eligible.filter (fun p =>
        !(excluded_ids.contains p.person_id) && !(selIds.contains p.person_id)) := by
  simp only [cparams]

/-- Every error of the validation chain carries `c.st2`. -/
theorem cc_error_st (now : String) (prize : PrizeConfig) (excluded_ids : List String)
    (remaining : Int) (rng : Rng) (c : CParams) {msg : String} {stE : DrawState}
    (h : constrainedChecks now prize excluded_ids remaining rng c = .error (msg, stE)) :
    stE = c.st2 := by
  unfold constrainedChecks at h
  simp only [] at h
  by_cases h1 : c.min_excluded < 0
  · rw [if_pos h1, Except.error.injEq, Prod.mk.injEq] at h
    exact h.2.symm
  rw [if_neg h1] at h
  by_cases h2 : c.max_excluded.isSome = true ∧ c.max_excluded.getD 0 < 0
  · rw [if_pos h2, Except.error.injEq, Prod.mk.injEq] at h
    exact h.2.symm
  rw [if_neg h2] at h
  by_cases h3 : c.max_excluded.isSome = true ∧ c.max_excluded.getD 0 < c.min_excluded
  · rw [if_pos h3, Except.error.injEq, Prod.mk.injEq] at h
    exact h.2.symm
  rw [if_neg h3] at h
  by_cases h4 : c.max_excluded.isSome = true ∧ c.max_excluded.getD 0 < c.current_excluded_total
  · rw [if_pos h4, Except.error.injEq, Prod.mk.injEq] at h
    exact h.2.symm
  rw [if_neg h4] at h
  by_cases h5 : c.min_needed_in_current > remaining
  · rw [if_pos h5, Except.error.injEq, Prod.mk.injEq] at h
    exact h.2.symm
  rw [if_neg h5] at h
  by_cases h6 : c.min_needed_in_current > ((c.excluded_pool.length : Int))
  · rw [if_pos h6, Except.error.injEq, Prod.mk.injEq] at h
    exact h.2.symm
  rw [if_neg h6] at h
  by_cases h7 : c.max_excluded.isSome = true ∧ c.max_additional_excluded < 0
  · rw [if_pos h7, Except.error.injEq, Prod.mk.injEq] at h
    exact h.2.symm
  rw [if_neg h7] at h
  by_cases h8 : c.min_excluded_allowed > c.max_excluded_allowed
  · rw [if_pos h8, Except.error.injEq, Prod.mk.injEq] at h
    exact h.2.symm
  rw [if_neg h8] at h
  by_cases h9 : remaining -
      (if c.min_excluded_allowed = c.max_excluded_allowed then c.min_excluded_allowed
       else rng.randint c.min_excluded_allowed c.max_excluded_allowed) >
      ((c.non_excluded_pool.length : Int))
  · rw [if_pos h9, Except.error.injEq, Prod.mk.injEq] at h
    exact h.2.symm
  rw [if_neg h9] at h
  exact absurd h (by simp)

/-- Every error of the constrained phase carries the state left by the
slot-sum's lazy initialisations. -/
theorem cp_error_st (now : String) (prize : PrizeConfig) (excluded_ids : List String)
    (eligible : List Person) (selIds : List String) (cnt : Nat) (remaining : Int)
    (rmin rmax : Option Int) (ps : List PrizeConfig) (st : DrawState) (rng : Rng)
    {msg : String} {stE : DrawState}
    (h : constrainedPhase now prize excluded_ids eligible selIds cnt remaining rmin rmax
      ps st rng = .error (msg, stE)) :
    stE = (sumRemainingSlots ps st).2 := by
  rw [← cparams_st2 excluded_ids eligible selIds cnt remaining rmin rmax ps st]
  exact cc_error_st now prize excluded_ids remaining rng _ h

/-- Behaviour of one sampling site (`if count: for person in
random.sample(pool, count): ...append...`) of the constrained
phase. -/
theorem sampleSel_spec {rng : Rng} (hwf : rng.Wf) (now : String) (prize : PrizeConfig)
    (pool : List Person) (n : Int) (h0 : 0 ≤ n) (hn : n ≤ (pool.length : Int)) :
    (((if n = 0 then ([] : List WinnerRecord)
        else (rng.sample pool n.toNat).map
          (fun p => mkRecord now prize p "random")).length : Int) = n) ∧
    (∀ r ∈ (if n = 0 then ([] : List WinnerRecord)
        else (rng.sample pool n.toNat).map (fun p => mkRecord now prize p "random")),
      ∃ p, p ∈ pool ∧ r = mkRecord now prize p "random") ∧
    ((pool.map (fun p => p.person_id)).Nodup →
      ((if n = 0 then ([] : List WinnerRecord)
        else (rng.sample pool n.toNat).map
          (fun p => mkRecord now prize p "random")).map (fun r => r.person_id)).Nodup) := by
  by_cases hz : n = 0
  · rw [if_pos hz]
    refine ⟨by simp [hz], by simp, by simp⟩
  · rw [if_neg hz]
    have hle : n.toNat ≤ pool.length := by omega
    obtain ⟨hlen, hmem, hnd⟩ := sample_spec hwf pool n.toNat hle
    refine ⟨?_, ?_, ?_⟩
    · rw [List.length_map, hlen]
      omega
    · intro r hr
      rw [List.mem_map] at hr
      obtain ⟨p, hp, hpr⟩ := hr
      exact ⟨p, hmem p hp, hpr.symm⟩
    · intro hnodup
      rw [map_pid_mkRecord]
      exact hnd hnodup

/-- The ok-branch of the validation chain: the state is `c.st2`, the
output fills the whole budget, every record is a `"random"` record
from one of the two pools, ids are distinct when the pools are, and
the blocklist picks stay below `c.max_excluded_allowed`. -/
theorem cc_ok_spec (now : String) (prize : PrizeConfig) (excluded_ids : List String)
    (remaining : Int) (rng : Rng) (c : CParams)
    (hwf : rng.Wf)
    (hmin0 : 0 ≤ c.min_excluded_allowed)
    (hmaxr : c.max_excluded_allowed ≤ remaining)
    (hmaxp : c.max_excluded_allowed ≤ ((c.excluded_pool.length : Int)))
    (hexc : ∀ p ∈ c.excluded_pool, excluded_ids.contains p.person_id = true)
    (hnonc : ∀ p ∈ c.non_excluded_pool, excluded_ids.contains p.person_id = false)
    {out : List WinnerRecord} {stO : DrawState}
    (h : constrainedChecks now prize excluded_ids remaining rng c = .ok (out, stO)) :
    stO = c.st2 ∧
    (out.length : Int) = remaining ∧
    (∀ r ∈ out, ∃ p, (p ∈ c.excluded_pool ∨ p ∈ c.non_excluded_pool) ∧
      r = mkRecord now prize p "random") ∧
    ((c.excluded_pool.map (fun p => p.person_id)).Nodup →
      (c.non_excluded_pool.map (fun p => p.person_id)).Nodup →
      (out.map (fun r => r.person_id)).Nodup) ∧
    ((out.filter (fun r => excluded_ids.contains r.person_id)).length : Int) ≤
      c.max_excluded_allowed := by
  unfold constrainedChecks at h
  simp only [] at h
  by_cases h1 : c.min_excluded < 0
  · rw [if_pos h1] at h
    exact absurd h (by simp)
  rw [if_neg h1] at h
  by_cases h2 : c.max_excluded.isSome = true ∧ c.max_excluded.getD 0 < 0
  · rw [if_pos h2] at h
    exact absurd h (by simp)
  rw [if_neg h2] at h
  by_cases h3 : c.max_excluded.isSome = true ∧ c.max_excluded.getD 0 < c.min_excluded
  · rw [if_pos h3] at h
    exact absurd h (by simp)
  rw [if_neg h3] at h
  by_cases h4 : c.max_excluded.isSome = true ∧ c.max_excluded.getD 0 < c.current_excluded_total
  · rw [if_pos h4] at h
    exact absurd h (by simp)
  rw [if_neg h4] at h
  by_cases h5 : c.min_needed_in_current > remaining
  · rw [if_pos h5] at h
    exact absurd h (by simp)
  rw [if_neg h5] at h
  by_cases h6 : c.min_needed_in_current > ((c.excluded_pool.length : Int))
  · rw [if_pos h6] at h
    exact absurd h (by simp)
  rw [if_neg h6] at h
  by_cases h7 : c.max_excluded.isSome = true ∧ c.max_additional_excluded < 0
  · rw [if_pos h7] at h
    exact absurd h (by simp)
  rw [if_neg h7] at h
  by_cases h8 : c.min_excluded_allowed > c.max_excluded_allowed
  · rw [if_pos h8] at h
    exact absurd h (by simp)
  rw [if_neg h8] at h
  set ec := (if c.min_excluded_allowed = c.max_excluded_allowed then c.min_excluded_allowed
    else rng.randint c.min_excluded_allowed c.max_excluded_allowed) with hec
  have hecb : c.min_excluded_allowed ≤ ec ∧ ec ≤ c.max_excluded_allowed := by
    rw [hec]
    split
    · constructor
      · exact le_refl _
      · omega
    · exact hwf.1 c.min_excluded_allowed c.max_excluded_allowed (by omega)
  have hec0 : 0 ≤ ec := le_trans hmin0 hecb.1
  have hecr : ec ≤ remaining := le_trans hecb.2 hmaxr
  have hecp : ec ≤ ((c.excluded_pool.length : Int)) := le_trans hecb.2 hmaxp
  by_cases h9 : remaining - ec > ((c.non_excluded_pool.length : Int))
  · rw [if_pos h9] at h
    exact absurd h (by simp)
  rw [if_neg h9] at h
  rw [Except.ok.injEq, Prod.mk.injEq] at h
  obtain ⟨hout, hst⟩ := h
  obtain ⟨hexlen, hexmem, hexnd⟩ := sampleSel_spec hwf now prize c.excluded_pool ec hec0 hecp
  obtain ⟨hnnlen, hnnmem, hnnnd⟩ := sampleSel_spec hwf now prize c.non_excluded_pool
    (remaining - ec) (by omega) (by omega)
  set exSel := (if ec = 0 then ([] : List WinnerRecord)
    else (rng.sample c.excluded_pool ec.toNat).map
      (fun p => mkRecord now prize p "random")) with hexSel
  set nonSel := (if remaining - ec = 0 then ([] : List WinnerRecord)
    else (rng.sample c.non_excluded_pool (remaining - ec).toNat).map
      (fun p => mkRecord now prize p "random")) with hnonSel
  refine ⟨hst.symm, ?_, ?_, ?_, ?_⟩
  · rw [← hout, List.length_append]
    push_cast
    omega
  · intro r hr
    rw [← hout, List.mem_append] at hr
    rcases hr with hr1 | hr2
    · obtain ⟨p, hp, hpr⟩ := hexmem r hr1
      exact ⟨p, Or.inl hp, hpr⟩
    · obtain ⟨p, hp, hpr⟩ := hnnmem r hr2
      exact ⟨p, Or.inr hp, hpr⟩
  · intro hnd1 hnd2
    rw [← hout, List.map_append, List.nodup_append]
    refine ⟨hexnd hnd1, hnnnd hnd2, ?_⟩
    intro x hx1 hx2
    rw [List.mem_map] at hx1 hx2
    obtain ⟨r1, hr1, hxr1⟩ := hx1
    obtain ⟨r2, hr2, hxr2⟩ := hx2
    obtain ⟨p1, hp1, hpr1⟩ := hexmem r1 hr1
    obtain ⟨p2, hp2, hpr2⟩ := hnnmem r2 hr2
    have e1 : x = p1.person_id := by rw [← hxr1, hpr1]; rfl
    have e2 : x = p2.person_id := by rw [← hxr2, hpr2]; rfl
    have hc1 := hexc p1 hp1
    have hc2 := hnonc p2 hp2
    rw [← e1] at hc1
    rw [← e2] at hc2
    rw [hc1] at hc2
    exact Bool.noConfusion hc2
  · rw [← hout, List.filter_append, List.length_append]
    have hz : (nonSel.filter (fun r => excluded_ids.contains r.person_id)) = [] := by
      rw [List.filter_eq_nil_iff]
      intro r hr
      obtain ⟨p, hp, hpr⟩ := hnnmem r hr
      have := hnonc p hp
      rw [hpr]
      show ¬(excluded_ids.contains (mkRecord now prize p "random").person_id = true)
      have e3 : (mkRecord now prize p "random").person_id = p.person_id := rfl
      rw [e3, this]
      exact Bool.noConfusion
    rw [hz]
    have hle2 : (exSel.filter (fun r => excluded_ids.contains r.person_id)).length ≤
        exSel.length := List.length_filter_le _ _
    have : (exSel.length : Int) = ec := hexlen
    simp only [List.length_nil, Nat.add_zero]
    omega

theorem commitResult_error {pid : String} {selected1 : List WinnerRecord}
    {r : Except (String × DrawState) (List WinnerRecord × DrawState)}
    {m : String} {stE : DrawState}
    (h : commitResult pid selected1 r = .error (m, stE)) : r = .error (m, stE) := by
  cases r with
  | error e => simpa [commitResult] using h
  | ok o =>
    obtain ⟨sel3, stP⟩ := o
    simp [commitResult] at h

theorem commitResult_ok {pid : String} {selected1 : List WinnerRecord}
    {r : Except (String × DrawState) (List WinnerRecord × DrawState)}
    {sel : List WinnerRecord} {stF : DrawState}
    (h : commitResult pid selected1 r = .ok (sel, stF)) :
    ∃ sel3 stP, r = .ok (sel3, stP) ∧ sel = selected1 ++ sel3 ∧
      stF = commitState stP pid (selected1 ++ sel3) := by
  cases r with
  | error e => simp [commitResult] at h
  | ok o =>
    obtain ⟨sel3, stP⟩ := o
    simp only [commitResult, Except.ok.injEq, Prod.mk.injEq] at h
    exact ⟨sel3, stP, rfl, h.1.symm, h.2.symm⟩

theorem drawCtx_st1 (prize : PrizeConfig) (people : List Person) (st0 : DrawState)
    (gmw exids : List String) (inc : Bool) (dc : Option Int) (now : String) :
    (drawCtx prize people st0 gmw exids inc dc now).st1 =
      setdefaultPrize st0 prize.prize_id := rfl

/-- Any raising `draw_prize` call leaves `winners` untouched, keeps
every pre-existing `prizes` entry (key and value), and any new entry
is an empty one for the drawn prize or for a prize of the `prizes`
argument (the lazy `setdefault` initialisations). -/
theorem draw_prize_error_props (prize : PrizeConfig) (people : List Person)
    (st0 : DrawState) (gmw exids : List String) (inc : Bool)
    (range : Option (Option Int × Option Int)) (prizesArg : Option (List PrizeConfig))
    (dc : Option Int) (rng : Rng) (now : String) {msg : String} {stE : DrawState}
    (h : draw_prize prize people st0 gmw exids inc range prizesArg dc rng now =
      .error (msg, stE)) :
    stE.winners = st0.winners ∧
    (∀ q w, st0.prizes.lookup q = some w → stE.prizes.lookup q = some w) ∧
    (∀ q w, stE.prizes.lookup q = some w → st0.prizes.lookup q = some w ∨
      (w = [] ∧ (q = prize.prize_id ∨ ∃ ps, prizesArg = some ps ∧
        q ∈ ps.map (fun item => item.prize_id)))) := by
  have props_st1 : ∀ st', st' = setdefaultPrize st0 prize.prize_id →
      st'.winners = st0.winners ∧
      (∀ q w, st0.prizes.lookup q = some w → st'.prizes.lookup q = some w) ∧
      (∀ q w, st'.prizes.lookup q = some w → st0.prizes.lookup q = some w ∨
        (w = [] ∧ (q = prize.prize_id ∨ ∃ ps, prizesArg = some ps ∧
          q ∈ ps.map (fun item => item.prize_id)))) := by
    intro st' hst
    subst hst
    refine ⟨sdp_winners st0 prize.prize_id, ?_, ?_⟩
    · intro q w hq
      exact sdp_lookup_of_some prize.prize_id hq
    · intro q w hq
      rcases sdp_lookup_inv hq with h1 | h2
      · exact Or.inl h1
      · exact Or.inr ⟨h2.2, Or.inl h2.1⟩
  unfold draw_prize at h
  simp only [] at h
  by_cases hA : (drawCtx prize people st0 gmw exids inc dc now).remaining0 ≤ 0
  · rw [if_pos hA] at h
    exact absurd h (by simp)
  rw [if_neg hA] at h
  by_cases hB : dc.getD 0 < 0
  · rw [if_pos hB] at h
    rw [Except.error.injEq, Prod.mk.injEq] at h
    exact props_st1 stE (by rw [← h.2, drawCtx_st1])
  rw [if_neg hB] at h
  have h2 := commitResult_error h
  by_cases hC : (drawCtx prize people st0 gmw exids inc dc now).remaining2 > 0
  · rw [if_pos hC] at h2
    cases range with
    | none =>
      simp only [] at h2
      exact absurd h2 (by simp)
    | some rr =>
      obtain ⟨rmin, rmax⟩ := rr
      cases prizesArg with
      | none =>
        simp only [] at h2
        exact absurd h2 (by simp)
      | some ps =>
        cases inc with
        | true =>
          simp only [] at h2
          exact absurd h2 (by simp)
        | false =>
          simp only [] at h2
          have hstE := cp_error_st now prize exids
            (drawCtx prize people st0 gmw exids false dc now).eligible_people
            (drawCtx prize people st0 gmw exids false dc now).selected_ids1
            (drawCtx prize people st0 gmw exids false dc now).excluded_selected_count
            (drawCtx prize people st0 gmw exids false dc now).remaining2
            rmin rmax ps
            (drawCtx prize people st0 gmw exids false dc now).st1 rng h2
          rw [drawCtx_st1] at hstE
          subst hstE
          refine ⟨?_, ?_, ?_⟩
          · rw [srs_winners, sdp_winners]
          · intro q w hq
            exact srs_lookup_of_some ps (sdp_lookup_of_some prize.prize_id hq)
          · intro q w hq
            rcases srs_lookup_inv ps _ hq with h3 | h4
            · rcases sdp_lookup_inv h3 with h5 | h6
              · exact Or.inl h5
              · exact Or.inr ⟨h6.2, Or.inl h6.1⟩
            · exact Or.inr ⟨h4.2, Or.inr ⟨ps, rfl, h4.1⟩⟩
  · rw [if_neg hC] at h2
    exact absurd h2 (by simp)

theorem drawCtx_epw (prize : PrizeConfig) (people : List Person) (st0 : DrawState)
    (gmw exids : List String) (inc : Bool) (dc : Option Int) (now : String) :
    (drawCtx prize people st0 gmw exids inc dc now).existing_prize_winners =
      getPrizeWinners (setdefaultPrize st0 prize.prize_id) prize.prize_id := rfl

theorem drawCtx_remaining0 (prize : PrizeConfig) (people : List Person) (st0 : DrawState)
    (gmw exids : List String) (inc : Bool) (dc : Option Int) (now : String) :
    (drawCtx prize people st0 gmw exids inc dc now).remaining0 =
      prize.count -
        ((getPrizeWinners (setdefaultPrize st0 prize.prize_id) prize.prize_id).length
          : Int) := by
  show (remaining_slots prize (setdefaultPrize st0 prize.prize_id)).1 = _
  unfold remaining_slots
  simp only []
  rw [sdp_get]

theorem drawCtx_remaining (prize : PrizeConfig) (people : List Person) (st0 : DrawState)
    (gmw exids : List String) (inc : Bool) (dc : Option Int) (now : String) :
    (drawCtx prize people st0 gmw exids inc dc now).remaining =
      min (drawCtx prize people st0 gmw exids inc dc now).remaining0
        (dc.getD (drawCtx prize people st0 gmw exids inc dc now).remaining0) := rfl

theorem drawCtx_eel (prize : PrizeConfig) (people : List Person) (st0 : DrawState)
    (gmw exids : List String) (inc : Bool) (dc : Option Int) (now : String) :
    (drawCtx prize people st0 gmw exids inc dc now).exclude_excluded_list =
      (prize.exclude_excluded_list && !inc) := rfl

theorem drawCtx_selected1 (prize : PrizeConfig) (people : List Person) (st0 : DrawState)
    (gmw exids : List String) (inc : Bool) (dc : Option Int) (now : String) :
    (drawCtx prize people st0 gmw exids inc dc now).selected1 =
      (mustWinPhase now prize people
        (drawCtx prize people st0 gmw exids inc dc now).existing_prize_winners
        (drawCtx prize people st0 gmw exids inc dc now).exclude_excluded_list
        exids (drawCtx prize people st0 gmw exids inc dc now).remaining
        prize.must_win_ids [] 0).1 := rfl

theorem drawCtx_selids (prize : PrizeConfig) (people : List Person) (st0 : DrawState)
    (gmw exids : List String) (inc : Bool) (dc : Option Int) (now : String) :
    (drawCtx prize people st0 gmw exids inc dc now).selected_ids1 =
      (drawCtx prize people st0 gmw exids inc dc now).selected1.map
        (fun r => r.person_id) := rfl

theorem drawCtx_remaining2 (prize : PrizeConfig) (people : List Person) (st0 : DrawState)
    (gmw exids : List String) (inc : Bool) (dc : Option Int) (now : String) :
    (drawCtx prize people st0 gmw exids inc dc now).remaining2 =
      (drawCtx prize people st0 gmw exids inc dc now).remaining -
        ((drawCtx prize people st0 gmw exids inc dc now).selected1.length : Int) := rfl

theorem drawCtx_eligible (prize : PrizeConfig) (people : List Person) (st0 : DrawState)
    (gmw exids : List String) (inc : Bool) (dc : Option Int) (now : String) :
    (drawCtx prize people st0 gmw exids inc dc now).eligible_people =
      eligiblePeopleDef people
        (drawCtx prize people st0 gmw exids inc dc now).excluded_winners
        (drawCtx prize people st0 gmw exids inc dc now).excluded_must_win
        (drawCtx prize people st0 gmw exids inc dc now).existing_prize_winners
        (drawCtx prize people st0 gmw exids inc dc now).exclusion_blocklist := rfl

theorem drawCtx_emw (prize : PrizeConfig) (people : List Person) (st0 : DrawState)
    (gmw exids : List String) (inc : Bool) (dc : Option Int) (now : String) :
    (drawCtx prize people st0 gmw exids inc dc now).excluded_must_win =
      excluded_must_win_set prize gmw := rfl

theorem drawCtx_ew (prize : PrizeConfig) (people : List Person) (st0 : DrawState)
    (gmw exids : List String) (inc : Bool) (dc : Option Int) (now : String) :
    (drawCtx prize people st0 gmw exids inc dc now).excluded_winners =
      (if prize.exclude_previous_winners
        then (setdefaultPrize st0 prize.prize_id).winners.map (fun w => w.person_id)
        else []) := rfl

theorem commit_nil (st : DrawState) (pid : String) : commitState st pid [] = st := by
  unfold commitState
  simp

/-- Membership in the eligibility filter, unpacked. -/
theorem eligible_mem {people : List Person} {ew emw epw bl : List String} {p : Person}
    (h : p ∈ eligiblePeopleDef people ew emw epw bl) :
    p ∈ people ∧ ew.contains p.person_id = false ∧ emw.contains p.person_id = false ∧
      epw.contains p.person_id = false ∧ bl.contains p.person_id = false := by
  unfold eligiblePeopleDef at h
  rw [List.mem_filter] at h
  refine ⟨h.1, ?_⟩
  have h2 := h.2
  simp only [Bool.and_eq_true, Bool.not_eq_eq_eq_not, Bool.not_true] at h2
  exact ⟨h2.1.1.1, h2.1.1.2, h2.1.2, h2.2⟩

theorem eligible_pid_nodup (people : List Person) (ew emw epw bl : List String)
    (h : (people.map (fun p => p.person_id)).Nodup) :
    ((eligiblePeopleDef people ew emw epw bl).map (fun p => p.person_id)).Nodup :=
  filter_map_pid_nodup _ people h

/-- Everything a successful `draw_prize` call guarantees: the final
state is the phase-3 state (whose prize entries agree with the initial
state) plus one commit of the returned records; the returned records
respect the slot budget; each is either a guaranteed pick of a
configured id not yet a winner of this prize, or a random pick from
the eligible pool minus the already-selected ids; and ids are pairwise
distinct when the roster and the must-win list are duplicate-free. -/
theorem draw_prize_ok_props (prize : PrizeConfig) (people : List Person) (st0 : DrawState)
    (gmw exids : List String) (inc : Bool) (range : Option (Option Int × Option Int))
    (prizesArg : Option (List PrizeConfig)) (dc : Option Int) (rng : Rng) (now : String)
    (hwf : rng.Wf) {sel : List WinnerRecord} {stF : DrawState}
    (h : draw_prize prize people st0 gmw exids inc range prizesArg dc rng now =
      .ok (sel, stF)) :
    ∃ stP,
      stF = commitState stP prize.prize_id sel ∧
      stP.winners = st0.winners ∧
      (∀ q, getPrizeWinners stP q = getPrizeWinners st0 q) ∧
      stP.prizes.lookup prize.prize_id = some (getPrizeWinners st0 prize.prize_id) ∧
      (∀ q w, stP.prizes.lookup q = some w → st0.prizes.lookup q = some w ∨ w = []) ∧
      (sel.length : Int) ≤ max (drawCtx prize people st0 gmw exids inc dc now).remaining 0 ∧
      (∀ r ∈ sel,
        (r.source = "must_win" ∧ r.person_id ∈ prize.must_win_ids ∧
          r.person_id ∉
            (drawCtx prize people st0 gmw exids inc dc now).existing_prize_winners ∧
          ∃ p, p ∈ people ∧ r = mkRecord now prize p "must_win") ∨
        (r.source = "random" ∧ ∃ p,
          p ∈ (drawCtx prize people st0 gmw exids inc dc now).eligible_people ∧
          (drawCtx prize people st0 gmw exids inc dc now).selected_ids1.contains p.person_id
            = false ∧
          r = mkRecord now prize p "random")) ∧
      ((people.map (fun p => p.person_id)).Nodup → prize.must_win_ids.Nodup →
        (sel.map (fun r => r.person_id)).Nodup) := by
  unfold draw_prize at h
  simp only [] at h
  set c := drawCtx prize people st0 gmw exids inc dc now with hc
  have hst1 : c.st1 = setdefaultPrize st0 prize.prize_id := by
    rw [hc]
    exact drawCtx_st1 prize people st0 gmw exids inc dc now
  have stP_props : ∀ stP : DrawState,
      (stP = c.st1 ∨ ∃ ps : List PrizeConfig, stP = (sumRemainingSlots ps c.st1).2) →
      stP.winners = st0.winners ∧
      (∀ q, getPrizeWinners stP q = getPrizeWinners st0 q) ∧
      stP.prizes.lookup prize.prize_id = some (getPrizeWinners st0 prize.prize_id) ∧
      (∀ q w, stP.prizes.lookup q = some w → st0.prizes.lookup q = some w ∨ w = []) := by
    intro stP hstP
    rcases hstP with h1 | ⟨ps, h2⟩
    · subst h1
      rw [hst1]
      refine ⟨sdp_winners st0 prize.prize_id, fun q => sdp_get st0 prize.prize_id q,
        sdp_lookup_self st0 prize.prize_id, ?_⟩
      intro q w hq
      rcases sdp_lookup_inv hq with h3 | h4
      · exact Or.inl h3
      · exact Or.inr h4.2
    · subst h2
      rw [hst1]
      refine ⟨by rw [srs_winners, sdp_winners], fun q => by rw [srs_get, sdp_get],
        srs_lookup_of_some ps (sdp_lookup_self st0 prize.prize_id), ?_⟩
      intro q w hq
      rcases srs_lookup_inv ps _ hq with h3 | h4
      · rcases sdp_lookup_inv h3 with h5 | h6
        · exact Or.inl h5
        · exact Or.inr h6.2
      · exact Or.inr h4.2
  by_cases hA : c.remaining0 ≤ 0
  · rw [if_pos hA] at h
    rw [Except.ok.injEq, Prod.mk.injEq] at h
    obtain ⟨hsel, hstF⟩ := h
    obtain ⟨hw, hg, hlk, hinv⟩ := stP_props c.st1 (Or.inl rfl)
    refine ⟨c.st1, ?_, hw, hg, hlk, hinv, ?_, ?_, ?_⟩
    · rw [← hsel, commit_nil]
      exact hstF.symm
    · rw [← hsel]
      simp only [List.length_nil, Int.natCast_zero]
      exact le_max_right _ _
    · intro r hr
      rw [← hsel] at hr
      exact absurd hr (List.not_mem_nil r)
    · intro _ _
      rw [← hsel]
      simp
  rw [if_neg hA] at h
  by_cases hB : dc.getD 0 < 0
  · rw [if_pos hB] at h
    exact absurd h (by simp)
  rw [if_neg hB] at h
  obtain ⟨sel3, stP0, hph3, hsel, hstF⟩ := commitResult_ok h
  have hremnn : 0 ≤ c.remaining := by
    have hr : c.remaining = min c.remaining0 (dc.getD c.remaining0) := by
      rw [hc]
      exact drawCtx_remaining prize people st0 gmw exids inc dc now
    rw [hr]
    cases dc with
    | none =>
      simp only [Option.getD_none]
      omega
    | some n =>
      simp only [Option.getD_some] at hB ⊢
      omega
  have hs1 : c.selected1 = (mustWinPhase now prize people c.existing_prize_winners
      c.exclude_excluded_list exids c.remaining prize.must_win_ids [] 0).1 := by
    rw [hc]
    exact drawCtx_selected1 prize people st0 gmw exids inc dc now
  have hs1len : (c.selected1.length : Int) ≤ c.remaining := by
    rw [hs1]
    exact mwp_length_le now prize people c.existing_prize_winners c.exclude_excluded_list
      exids c.remaining prize.must_win_ids [] 0 (by simpa using hremnn)
  have hs1shape : ∀ r ∈ c.selected1, r.source = "must_win" ∧
      r.person_id ∈ prize.must_win_ids ∧ r.person_id ∉ c.existing_prize_winners ∧
      ∃ p, p ∈ people ∧ r = mkRecord now prize p "must_win" := by
    intro r hr
    rw [hs1] at hr
    rcases mwp_shape now prize people c.existing_prize_winners c.exclude_excluded_list
      exids c.remaining prize.must_win_ids [] 0 hr with h1 | h2
    · exact absurd h1 (List.not_mem_nil r)
    · exact h2
  have hs1nodup : prize.must_win_ids.Nodup →
      (c.selected1.map (fun r => r.person_id)).Nodup := by
    intro hmw
    rw [hs1]
    exact mwp_ids_nodup now prize people c.existing_prize_winners c.exclude_excluded_list
      exids c.remaining prize.must_win_ids [] 0 hmw (by simp) (by simp)
  have hselids : c.selected_ids1 = c.selected1.map (fun r => r.person_id) := by
    rw [hc]
    exact drawCtx_selids prize people st0 gmw exids inc dc now
  have hrem2 : c.remaining2 = c.remaining - (c.selected1.length : Int) := by
    rw [hc]
    exact drawCtx_remaining2 prize people st0 gmw exids inc dc now
  have heligible_nodup : (people.map (fun p => p.person_id)).Nodup →
      (c.eligible_people.map (fun p => p.person_id)).Nodup := by
    intro hp
    have he : c.eligible_people = eligiblePeopleDef people c.excluded_winners
        c.excluded_must_win c.existing_prize_winners c.exclusion_blocklist := by
      rw [hc]
      exact drawCtx_eligible prize people st0 gmw exids inc dc now
    rw [he]
    exact eligible_pid_nodup people _ _ _ _ hp
  have assemble : ∀ (sel3' : List WinnerRecord) (stP' : DrawState),
      sel = c.selected1 ++ sel3' →
      stF = commitState stP' prize.prize_id (c.selected1 ++ sel3') →
      (stP' = c.st1 ∨ ∃ ps : List PrizeConfig, stP' = (sumRemainingSlots ps c.st1).2) →
      ((sel3'.length : Int) ≤ max c.remaining2 0) →
      (∀ r ∈ sel3', r.source = "random" ∧ ∃ p, p ∈ c.eligible_people ∧
        c.selected_ids1.contains p.person_id = false ∧
        r = mkRecord now prize p "random") →
      ((people.map (fun p => p.person_id)).Nodup →
        (sel3'.map (fun r => r.person_id)).Nodup) →
      (∃ stP,
        stF = commitState stP prize.prize_id sel ∧
        stP.winners = st0.winners ∧
        (∀ q, getPrizeWinners stP q = getPrizeWinners st0 q) ∧
        stP.prizes.lookup prize.prize_id = some (getPrizeWinners st0 prize.prize_id) ∧
        (∀ q w, stP.prizes.lookup q = some w → st0.prizes.lookup q = some w ∨ w = []) ∧
        (sel.length : Int) ≤ max c.remaining 0 ∧
        (∀ r ∈ sel,
          (r.source = "must_win" ∧ r.person_id ∈ prize.must_win_ids ∧
            r.person_id ∉ c.existing_prize_winners ∧
            ∃ p, p ∈ people ∧ r = mkRecord now prize p "must_win") ∨
          (r.source = "random" ∧ ∃ p, p ∈ c.eligible_people ∧
            c.selected_ids1.contains p.person_id = false ∧
            r = mkRecord now prize p "random")) ∧
        ((people.map (fun p => p.person_id)).Nodup → prize.must_win_ids.Nodup →
          (sel.map (fun r => r.person_id)).Nodup)) := by
    intro sel3' stP' hsel' hstF' hstP' hlen' hshape' hnd'
    obtain ⟨hw, hg, hlk, hinv⟩ := stP_props stP' hstP'
    refine ⟨stP', by rw [hsel']; exact hstF', hw, hg, hlk, hinv, ?_, ?_, ?_⟩
    · rw [hsel', List.length_append]
      push_cast
      omega
    · intro r hr
      rw [hsel', List.mem_append] at hr
      rcases hr with hr1 | hr2
      · exact Or.inl (hs1shape r hr1)
      · exact Or.inr (hshape' r hr2)
    · intro hpeople hmw
      rw [hsel', List.map_append, List.nodup_append]
      refine ⟨hs1nodup hmw, hnd' hpeople, ?_⟩
      intro x hx1 hx2
      rw [List.mem_map] at hx2
      obtain ⟨r2, hr2, hxr2⟩ := hx2
      obtain ⟨hsrc, p, hpe, hpc, hpr⟩ := hshape' r2 hr2
      have hx2p : x = p.person_id := by
        rw [← hxr2, hpr]
        rfl
      rw [hselids] at hpc
      rw [contains_false_iff] at hpc
      rw [hx2p] at hx1
      exact hpc hx1
  by_cases hC : c.remaining2 > 0
  · rw [if_pos hC] at hph3
    have key : (simplePhase now prize c.eligible_people c.selected_ids1 c.remaining2 rng
        = sel3 ∧ c.st1 = stP0) ∨
        (∃ rmin rmax : Option Int, ∃ ps : List PrizeConfig,
          constrainedPhase now prize exids c.eligible_people c.selected_ids1
            c.excluded_selected_count c.remaining2 rmin rmax ps c.st1 rng
            = .ok (sel3, stP0)) := by
      cases range with
      | none =>
        simp only [] at hph3
        rw [Except.ok.injEq, Prod.mk.injEq] at hph3
        exact Or.inl hph3
      | some rr =>
        obtain ⟨rmin, rmax⟩ := rr
        cases prizesArg with
        | none =>
          simp only [] at hph3
          rw [Except.ok.injEq, Prod.mk.injEq] at hph3
          exact Or.inl hph3
        | some ps =>
          cases inc with
          | true =>
            simp only [] at hph3
            rw [Except.ok.injEq, Prod.mk.injEq] at hph3
            exact Or.inl hph3
          | false =>
            simp only [] at hph3
            exact Or.inr ⟨rmin, rmax, ps, hph3⟩
    rcases key with ⟨hsp, hstP0⟩ | ⟨rmin, rmax, ps, hcp⟩
    · obtain ⟨hl, hm, hn⟩ := sp_spec now prize c.eligible_people c.selected_ids1
        c.remaining2 hwf (le_of_lt hC)
      refine assemble sel3 stP0 hsel hstF (Or.inl hstP0.symm) ?_ ?_ ?_
      · rw [← hsp, hl]
        omega
      · intro r hr
        rw [← hsp] at hr
        obtain ⟨p, hpe, hpc, hpr⟩ := hm r hr
        exact ⟨by rw [hpr]; rfl, p, hpe, hpc, hpr⟩
      · intro hpeople
        rw [← hsp]
        exact hn (filter_map_pid_nodup _ _ (heligible_nodup hpeople))
    · rw [constrainedPhase] at hcp
      have hmin0 := cparams_min_allowed_nonneg exids c.eligible_people c.selected_ids1
        c.excluded_selected_count c.remaining2 rmin rmax ps c.st1
      have hmaxr := cparams_max_allowed_le_remaining exids c.eligible_people
        c.selected_ids1 c.excluded_selected_count c.remaining2 rmin rmax ps c.st1
      have hmaxp := cparams_max_allowed_le_pool exids c.eligible_people c.selected_ids1
        c.excluded_selected_count c.remaining2 rmin rmax ps c.st1
      have hexc : ∀ p ∈ (cparams exids c.eligible_people c.selected_ids1
          c.excluded_selected_count c.remaining2 rmin rmax ps c.st1).excluded_pool,
          exids.contains p.person_id = true := by
        intro p hp
        rw [cparams_excluded_pool] at hp
        rw [List.mem_filter] at hp
        have h2 := hp.2
        simp only [Bool.and_eq_true] at h2
        exact h2.1
      have hnonc : ∀ p ∈ (cparams exids c.eligible_people c.selected_ids1
          c.excluded_selected_count c.remaining2 rmin rmax ps c.st1).non_excluded_pool,
          exids.contains p.person_id = false := by
        intro p hp
        rw [cparams_non_excluded_pool] at hp
        rw [List.mem_filter] at hp
        have h2 := hp.2
        simp only [Bool.and_eq_true, Bool.not_eq_eq_eq_not, Bool.not_true] at h2
        exact h2.1
      obtain ⟨hst2, hlen3, hmem3, hnd3, hfilt3⟩ := cc_ok_spec now prize exids c.remaining2
        rng _ hwf hmin0 hmaxr hmaxp hexc hnonc hcp
      refine assemble sel3 stP0 hsel hstF ?_ ?_ ?_ ?_
      · refine Or.inr ⟨ps, ?_⟩
        rw [hst2, cparams_st2]
      · rw [hlen3]
        exact le_max_left _ _
      · intro r hr
        obtain ⟨p, hp, hpr⟩ := hmem3 r hr
        have hpel : p ∈ c.eligible_people ∧
            c.selected_ids1.contains p.person_id = false := by
          rcases hp with hp1 | hp1
          · rw [cparams_excluded_pool, List.mem_filter] at hp1
            have h2 := hp1.2
            simp only [Bool.and_eq_true, Bool.not_eq_eq_eq_not, Bool.not_true] at h2
            exact ⟨hp1.1, h2.2⟩
          · rw [cparams_non_excluded_pool, List.mem_filter] at hp1
            have h2 := hp1.2
            simp only [Bool.and_eq_true, Bool.not_eq_eq_eq_not, Bool.not_true] at h2
            exact ⟨hp1.1, h2.2⟩
        exact ⟨by rw [hpr]; rfl, p, hpel.1, hpel.2, hpr⟩
      · intro hpeople
        apply hnd3
        · rw [cparams_excluded_pool]
          exact filter_map_pid_nodup _ _ (heligible_nodup hpeople)
        · rw [cparams_non_excluded_pool]
          exact filter_map_pid_nodup _ _ (heligible_nodup hpeople)
  · rw [if_neg hC] at hph3
    rw [Except.ok.injEq, Prod.mk.injEq] at hph3
    refine assemble sel3 stP0 hsel hstF (Or.inl hph3.2.symm) ?_ ?_ ?_
    · rw [← hph3.1]
      simp only [List.length_nil, Int.natCast_zero]
      exact le_max_right _ _
    · intro r hr
      rw [← hph3.1] at hr
      exact absurd hr (List.not_mem_nil r)
    · intro _
      rw [← hph3.1]
      simp

/-! ### Claim theorems -/

/-- C6: for every prize with positive `count` whose remaining-slot
computation is non-positive, `draw_prize` returns the empty list and
the state is returned exactly as given — no entry of `winners` or
`prizes` is added, removed or modified (the lazy `setdefault` is a
no-op because a positive `count` with no remaining slots forces the
per-prize entry to exist already). -/
theorem C6_idempotent_noop (prize : PrizeConfig) (people : List Person) (st0 : DrawState)
    (gmw exids : List String) (inc : Bool) (range : Option (Option Int × Option Int))
    (prizesArg : Option (List PrizeConfig)) (dc : Option Int) (rng : Rng) (now : String)
    (hcount : 0 < prize.count)
    (hfull : prize.count ≤ ((getPrizeWinners st0 prize.prize_id).length : Int)) :
    draw_prize prize people st0 gmw exids inc range prizesArg dc rng now =
      .ok ([], st0) := by
  have hlen : 1 ≤ (getPrizeWinners st0 prize.prize_id).length := by omega
  have hsome : (st0.prizes.lookup prize.prize_id).isSome = true := by
    unfold getPrizeWinners at hlen
    cases hl : st0.prizes.lookup prize.prize_id with
    | some v => simp
    | none =>
      rw [hl] at hlen
      simp at hlen
  have hsd : setdefaultPrize st0 prize.prize_id = st0 := by
    unfold setdefaultPrize
    rw [if_pos hsome]
  have hA : (drawCtx prize people st0 gmw exids inc dc now).remaining0 ≤ 0 := by
    rw [drawCtx_remaining0, hsd]
    omega
  unfold draw_prize
  simp only []
  rw [if_pos hA, drawCtx_st1, hsd]

/-- C6 witness: a full one-slot prize, drawn again, is a no-op. -/
theorem C6_idempotent_noop_witness :
    draw_prize ⟨"P1", "Grand", 1, true, true, true, []⟩ [⟨"A", "Alice", "D"⟩]
      ⟨[], [("P1", ["B"])]⟩ [] [] false none none none defaultRng "t0" =
      .ok ([], ⟨[], [("P1", ["B"])]⟩) :=
  C6_idempotent_noop _ _ _ _ _ _ _ _ _ _ _ (by decide) (by decide)

/-- C1 counterexample: a negative `draw_count` raises, yet
`state.prizes` has gained a new (empty) entry for the drawn prize —
the lazy `setdefault` at the top of `draw_prize` runs before any
validation, so the claim that a raising call leaves `state.prizes`
with "no new entries" is false. -/
theorem C1_error_atomicity_counterexample :
    draw_prize ⟨"P1", "Grand", 1, true, true, true, []⟩ [] ⟨[], []⟩ [] [] false none
      none (some (-1)) defaultRng "t0" =
      .error ("抽奖人数不能为负数。", ⟨[], [("P1", [])]⟩) ∧
    ([("P1", [])] : List (String × List String)) ≠ [] := by
  exact ⟨rfl, by decide⟩

/-- C1 (amended): a raising `draw_prize` call leaves `state.winners`
exactly as before and every pre-existing entry of `state.prizes`
(key and contents) unchanged; `state.prizes` may however gain new
entries, and any such new entry is an empty winner list. -/
theorem C1_error_atomicity_amended (prize : PrizeConfig) (people : List Person)
    (st0 : DrawState) (gmw exids : List String) (inc : Bool)
    (range : Option (Option Int × Option Int)) (prizesArg : Option (List PrizeConfig))
    (dc : Option Int) (rng : Rng) (now : String) {msg : String} {stE : DrawState}
    (h : draw_prize prize people st0 gmw exids inc range prizesArg dc rng now =
      .error (msg, stE)) :
    stE.winners = st0.winners ∧
    (∀ q w, st0.prizes.lookup q = some w → stE.prizes.lookup q = some w) ∧
    (∀ q w, stE.prizes.lookup q = some w → st0.prizes.lookup q = some w ∨ w = []) := by
  obtain ⟨h1, h2, h3⟩ := draw_prize_error_props prize people st0 gmw exids inc range
    prizesArg dc rng now h
  refine ⟨h1, h2, ?_⟩
  intro q w hq
  rcases h3 q w hq with h4 | h5
  · exact Or.inl h4
  · exact Or.inr h5.1

/-- C1 witness: the amended statement at the concrete raising input of
the counterexample. -/
theorem C1_error_atomicity_amended_witness :
    (⟨[], [("P1", [])]⟩ : DrawState).winners = (⟨[], []⟩ : DrawState).winners ∧
    (∀ q w, (⟨[], []⟩ : DrawState).prizes.lookup q = some w →
      (⟨[], [("P1", [])]⟩ : DrawState).prizes.lookup q = some w) ∧
    (∀ q w, (⟨[], [("P1", [])]⟩ : DrawState).prizes.lookup q = some w →
      (⟨[], []⟩ : DrawState).prizes.lookup q = some w ∨ w = []) :=
  by
  have h : draw_prize ⟨"P1", "Grand", 1, true, true, true, []⟩ [] ⟨[], []⟩ [] []
      false none none (some (-1)) defaultRng "t0" =
      Except.error ("抽奖人数不能为负数。", (⟨[], [("P1", [])]⟩ : DrawState)) := rfl
  exact C1_error_atomicity_amended ⟨"P1", "Grand", 1, true, true, true, []⟩ [] ⟨[], []⟩
    [] [] false none none (some (-1)) defaultRng "t0" h

/-- C10: whenever `draw_prize` raises a `ValueError`, `state.winners`
and the contents of every pre-existing entry of `state.prizes` are
unchanged, but `state.prizes` may have gained new `{"winners": []}`
entries, and only for the drawn prize or for prizes of the `prizes`
argument (the lazy initialisation done by `remaining_slots`). -/
theorem C10_lazy_init_on_error (prize : PrizeConfig) (people : List Person)
    (st0 : DrawState) (gmw exids : List String) (inc : Bool)
    (range : Option (Option Int × Option Int)) (prizesArg : Option (List PrizeConfig))
    (dc : Option Int) (rng : Rng) (now : String) {msg : String} {stE : DrawState}
    (h : draw_prize prize people st0 gmw exids inc range prizesArg dc rng now =
      .error (msg, stE)) :
    stE.winners = st0.winners ∧
    (∀ q w, st0.prizes.lookup q = some w → stE.prizes.lookup q = some w) ∧
    (∀ q w, stE.prizes.lookup q = some w → st0.prizes.lookup q = some w ∨
      (w = [] ∧ (q = prize.prize_id ∨ ∃ ps, prizesArg = some ps ∧
        q ∈ ps.map (fun item => item.prize_id)))) :=
  draw_prize_error_props prize people st0 gmw exids inc range prizesArg dc rng now h

/-- C10 witness: an infeasible blocklist-minimum raises in constrained
mode after the slot sum lazily created empty entries for both prizes
of the `prizes` argument. -/
theorem C10_lazy_init_on_error_witness :
    (⟨[], [("P1", []), ("P2", [])]⟩ : DrawState).winners =
      (⟨[], []⟩ : DrawState).winners ∧
    (∀ q w, (⟨[], []⟩ : DrawState).prizes.lookup q = some w →
      (⟨[], [("P1", []), ("P2", [])]⟩ : DrawState).prizes.lookup q = some w) ∧
    (∀ q w, (⟨[], [("P1", []), ("P2", [])]⟩ : DrawState).prizes.lookup q = some w →
      (⟨[], []⟩ : DrawState).prizes.lookup q = some w ∨
      (w = [] ∧ (q = "P1" ∨ ∃ ps,
        (some [⟨"P1", "G", 1, true, true, false, []⟩, ⟨"P2", "H", 1, true, true, false, []⟩]
          : Option (List PrizeConfig)) = some ps ∧
        q ∈ ps.map (fun item => item.prize_id)))) :=
  by
  have h : draw_prize ⟨"P1", "G", 1, true, true, false, []⟩ [] ⟨[], []⟩ []
      ["E1"] false (some (some 5, none))
      (some [⟨"P1", "G", 1, true, true, false, []⟩, ⟨"P2", "H", 1, true, true, false, []⟩])
      none defaultRng "t0" =
      Except.error ("排除名单最小中奖人数超过可抽取名额。",
        (⟨[], [("P1", []), ("P2", [])]⟩ : DrawState)) := rfl
  exact C10_lazy_init_on_error ⟨"P1", "G", 1, true, true, false, []⟩ [] ⟨[], []⟩ []
    ["E1"] false (some (some 5, none))
    (some [⟨"P1", "G", 1, true, true, false, []⟩, ⟨"P2", "H", 1, true, true, false, []⟩])
    none defaultRng "t0" h

/-- C7 counterexample: all of the claim's hypotheses hold — `A` heads
`must_win_ids`, is in the roster, is not already a winner of the prize,
and is not blocked — yet the call returns the empty list, not one
record for `A`, because a different person already fills the prize's
single slot (`remaining_slots = 0` short-circuits the call). -/
theorem C7_guaranteed_priority_counterexample :
    ("A" ∈ ([⟨"A", "Alice", "D"⟩] : List Person).map (fun p => p.person_id)) ∧
    ("A" ∉ getPrizeWinners ⟨[], [("P1", ["X"])]⟩ "P1") ∧
    draw_prize ⟨"P1", "G", 1, true, true, true, ["A", "B"]⟩ [⟨"A", "Alice", "D"⟩]
      ⟨[], [("P1", ["X"])]⟩ ["A", "B"] [] false none none none defaultRng "t0" =
      .ok ([], ⟨[], [("P1", ["X"])]⟩) := by
  refine ⟨by decide, by decide, rfl⟩

/-- C7 (amended): with `must_win_ids = [a, b]`, `count = 1`, the
default `draw_count`, `a` present in the roster, not blocked by the
active blocklist gate, and — the amendment — no winner recorded yet
for the prize (so its single slot is open), `draw_prize` returns
exactly one record, for `a`, with source `"must_win"`, for every
random source and every mode. -/
theorem C7_guaranteed_priority_amended (prize : PrizeConfig) (people : List Person)
    (st0 : DrawState) (gmw exids : List String) (inc : Bool)
    (range : Option (Option Int × Option Int)) (prizesArg : Option (List PrizeConfig))
    (rng : Rng) (now : String) (a b : String) (p : Person)
    (hids : prize.must_win_ids = [a, b])
    (hcount : prize.count = 1)
    (hopen : getPrizeWinners st0 prize.prize_id = [])
    (hfind : people.find? (fun q => q.person_id == a) = some p)
    (hblock : (prize.exclude_excluded_list && !inc) = true → exids.contains a = false) :
    ∃ stF, draw_prize prize people st0 gmw exids inc range prizesArg none rng now =
      .ok ([mkRecord now prize p "must_win"], stF) := by
  set c := drawCtx prize people st0 gmw exids inc none now with hc
  have hepw : c.existing_prize_winners = [] := by
    rw [hc, drawCtx_epw, sdp_get, hopen]
  have hrem0 : c.remaining0 = 1 := by
    rw [hc, drawCtx_remaining0, sdp_get, hopen, hcount]
    rfl
  have hrem : c.remaining = 1 := by
    rw [hc, drawCtx_remaining, ← hc, hrem0]
    simp
  have hA : ¬(c.remaining0 ≤ 0) := by omega
  have hblock2 : (c.exclude_excluded_list && exids.contains a) = false := by
    rw [hc, drawCtx_eel]
    cases hcase : (prize.exclude_excluded_list && !inc) with
    | false => rfl
    | true =>
      rw [Bool.true_and]
      exact hblock hcase
  have hs1 : c.selected1 = [mkRecord now prize p "must_win"] := by
    rw [hc, drawCtx_selected1, ← hc, hids]
    rw [mwp_select_step now prize people c.existing_prize_winners c.exclude_excluded_list
      exids c.remaining a [b] [] 0 p (by rw [hrem]; simp) (by rw [hepw]; rfl) hblock2
      hfind]
    rw [mwp_stop now prize people c.existing_prize_winners c.exclude_excluded_list
      exids c.remaining [b] _ _ (by rw [hrem]; simp)]
    simp
  have hrem2 : c.remaining2 = 0 := by
    rw [hc, drawCtx_remaining2, ← hc, hrem, hs1]
    simp
  have hC : ¬(c.remaining2 > 0) := by omega
  have hmain : draw_prize prize people st0 gmw exids inc range prizesArg none rng now =
      .ok (c.selected1 ++ [],
        commitState c.st1 prize.prize_id (c.selected1 ++ [])) := by
    unfold draw_prize
    simp only []
    rw [← hc, if_neg hA, if_neg (show ¬((none : Option Int).getD 0 < 0) by simp),
      if_neg hC]
    simp only [commitResult]
  rw [hs1] at hmain
  refine ⟨commitState c.st1 prize.prize_id ([mkRecord now prize p "must_win"] ++ []), ?_⟩
  rw [hmain]
  simp

/-- C7 witness: the amended statement at a concrete open prize. -/
theorem C7_guaranteed_priority_amended_witness :
    ∃ stF, draw_prize ⟨"P1", "G", 1, true, true, true, ["A", "B"]⟩ [⟨"A", "Alice", "D"⟩]
      ⟨[], []⟩ ["A", "B"] [] false none none none defaultRng "t0" =
      .ok ([mkRecord "t0" ⟨"P1", "G", 1, true, true, true, ["A", "B"]⟩
        ⟨"A", "Alice", "D"⟩ "must_win"], stF) :=
  C7_guaranteed_priority_amended ⟨"P1", "G", 1, true, true, true, ["A", "B"]⟩
    [⟨"A", "Alice", "D"⟩] ⟨[], []⟩ ["A", "B"] [] false none none defaultRng "t0"
    "A" "B" ⟨"A", "Alice", "D"⟩ rfl rfl rfl rfl (fun _ => rfl)

/-- C9: the guaranteed phase checks only three skip conditions — prior
winner of this prize, blocked by the active blocklist gate, missing
from the roster — so a must-win person who already won a different
prize (hence is a global previous winner) is still selected by the
guaranteed phase when `exclude_previous_winners = true`, even though
that same person is excluded from the random-phase eligible pool. -/
theorem C9_guaranteed_skip_conditions (prize : PrizeConfig) (people : List Person)
    (st0 : DrawState) (gmw exids : List String) (dc : Option Int) (rng : Rng)
    (now : String) (a : String) (rest : List String) (p : Person)
    (hprev : prize.exclude_previous_winners = true)
    (hids : prize.must_win_ids = a :: rest)
    (hwon : a ∈ st0.winners.map (fun r => r.person_id))
    (hnotP : (getPrizeWinners st0 prize.prize_id).contains a = false)
    (hfind : people.find? (fun q => q.person_id == a) = some p)
    (hblock : prize.exclude_excluded_list = true → exids.contains a = false)
    (hrem : ((getPrizeWinners st0 prize.prize_id).length : Int) < prize.count)
    (hdc : ∀ n, dc = some n → 1 ≤ n) :
    (∃ sel stF, draw_prize prize people st0 gmw exids false none none dc rng now =
        .ok (sel, stF) ∧ mkRecord now prize p "must_win" ∈ sel) ∧
    (∀ q ∈ (drawCtx prize people st0 gmw exids false dc now).eligible_people,
      q.person_id ≠ a) := by
  set c := drawCtx prize people st0 gmw exids false dc now with hc
  have hepw : c.existing_prize_winners = getPrizeWinners st0 prize.prize_id := by
    rw [hc, drawCtx_epw, sdp_get]
  have hrem0 : c.remaining0 =
      prize.count - ((getPrizeWinners st0 prize.prize_id).length : Int) := by
    rw [hc, drawCtx_remaining0, sdp_get]
  have hA : ¬(c.remaining0 ≤ 0) := by
    rw [hrem0]
    omega
  have hremge : 1 ≤ c.remaining := by
    have hr : c.remaining = min c.remaining0 (dc.getD c.remaining0) := by
      rw [hc]
      exact drawCtx_remaining prize people st0 gmw exids false dc now
    rw [hr]
    cases dc with
    | none =>
      simp only [Option.getD_none]
      omega
    | some n =>
      have hn := hdc n rfl
      simp only [Option.getD_some]
      omega
  have hB : ¬((dc.getD 0 : Int) < 0) := by
    cases dc with
    | none => simp
    | some n =>
      have hn := hdc n rfl
      simp only [Option.getD_some]
      omega
  have hblock2 : (c.exclude_excluded_list && exids.contains a) = false := by
    rw [hc, drawCtx_eel]
    cases hcase : prize.exclude_excluded_list with
    | false => rfl
    | true =>
      simp only [Bool.true_and]
      exact hblock hcase
  have hrecmem : mkRecord now prize p "must_win" ∈ c.selected1 := by
    rw [hc, drawCtx_selected1, ← hc, hids]
    rw [mwp_select_step now prize people c.existing_prize_winners c.exclude_excluded_list
      exids c.remaining a rest [] 0 p (by simp only [List.length_nil]; omega)
      (by rw [hepw]; exact hnotP) hblock2 hfind]
    exact mwp_mem_mono now prize people c.existing_prize_winners c.exclude_excluded_list
      exids c.remaining rest ([] ++ [mkRecord now prize p "must_win"]) _ (by simp)
  constructor
  · by_cases hC : c.remaining2 > 0
    · have hmain : draw_prize prize people st0 gmw exids false none none dc rng now =
          .ok (c.selected1 ++ simplePhase now prize c.eligible_people c.selected_ids1
              c.remaining2 rng,
            commitState c.st1 prize.prize_id (c.selected1 ++ simplePhase now prize
              c.eligible_people c.selected_ids1 c.remaining2 rng)) := by
        unfold draw_prize
        simp only []
        rw [← hc, if_neg hA, if_neg hB, if_pos hC]
        simp only [commitResult]
      exact ⟨_, _, hmain, List.mem_append_left _ hrecmem⟩
    · have hmain : draw_prize prize people st0 gmw exids false none none dc rng now =
          .ok (c.selected1 ++ [],
            commitState c.st1 prize.prize_id (c.selected1 ++ [])) := by
        unfold draw_prize
        simp only []
        rw [← hc, if_neg hA, if_neg hB, if_neg hC]
        simp only [commitResult]
      exact ⟨_, _, hmain, List.mem_append_left _ hrecmem⟩
  · intro q hq hqa
    rw [hc, drawCtx_eligible] at hq
    have h5 := eligible_mem hq
    have hew := h5.2.1
    rw [drawCtx_ew, hprev, if_pos rfl, sdp_winners] at hew
    rw [hqa] at hew
    exact absurd (contains_true_iff.mpr hwon) (by rw [hew]; exact Bool.noConfusion)

/-- C9 witness: a previous winner of prize P1 who heads P2's must-win
list is still picked for P2 by the guaranteed phase, and is absent
from P2's random-phase pool. -/
theorem C9_guaranteed_skip_conditions_witness :
    (∃ sel stF, draw_prize ⟨"P2", "G2", 1, true, true, true, ["A"]⟩ [⟨"A", "Alice", "D"⟩]
        ⟨[⟨"t", "P1", "G", "A", "Alice", "D", "random"⟩], [("P1", ["A"])]⟩ ["A"] []
        false none none none defaultRng "t0" = .ok (sel, stF) ∧
      mkRecord "t0" ⟨"P2", "G2", 1, true, true, true, ["A"]⟩ ⟨"A", "Alice", "D"⟩
        "must_win" ∈ sel) ∧
    (∀ q ∈ (drawCtx ⟨"P2", "G2", 1, true, true, true, ["A"]⟩ [⟨"A", "Alice", "D"⟩]
        ⟨[⟨"t", "P1", "G", "A", "Alice", "D", "random"⟩], [("P1", ["A"])]⟩ ["A"] []
        false none "t0").eligible_people, q.person_id ≠ "A") :=
  C9_guaranteed_skip_conditions _ _ _ _ _ _ _ _ "A" [] ⟨"A", "Alice", "D"⟩ rfl rfl
    (by decide) (by decide) rfl (fun _ => rfl) (by decide) (fun n h => by cases h)

/-- C5: with `exclude_must_win = true`, no `"random"`-source record of
a successful call carries an id reserved in `global_must_win` for a
different prize (an id in `global_must_win` but not in this prize's
own `must_win_ids`); and the must-win exclusion set never contains an
id of this prize's own `must_win_ids`. -/
theorem C5_exclusion_correctness (prize : PrizeConfig) (people : List Person)
    (st0 : DrawState) (gmw exids : List String) (inc : Bool)
    (range : Option (Option Int × Option Int)) (prizesArg : Option (List PrizeConfig))
    (dc : Option Int) (rng : Rng) (now : String)
    (hmw : prize.exclude_must_win = true) (hwf : rng.Wf) :
    (∀ sel stF, draw_prize prize people st0 gmw exids inc range prizesArg dc rng now =
        .ok (sel, stF) →
      ∀ r ∈ sel, r.source = "random" → r.person_id ∈ gmw →
        r.person_id ∈ prize.must_win_ids) ∧
    (∀ x ∈ prize.must_win_ids, x ∉ excluded_must_win_set prize gmw) := by
  constructor
  · intro sel stF h r hr hsrc hgmw
    obtain ⟨stP, _, _, _, _, _, _, hshape, _⟩ := draw_prize_ok_props prize people st0 gmw
      exids inc range prizesArg dc rng now hwf h
    rcases hshape r hr with h1 | h2
    · rw [h1.1] at hsrc
      exact absurd hsrc (by decide)
    · obtain ⟨_, p, hpe, _, hpr⟩ := h2
      by_contra hnotin
      have hpid : r.person_id = p.person_id := by
        rw [hpr]
        rfl
      have hin_emw : r.person_id ∈ excluded_must_win_set prize gmw := by
        unfold excluded_must_win_set
        rw [hmw, if_pos rfl, List.mem_filter]
        refine ⟨hgmw, ?_⟩
        have hcf : prize.must_win_ids.contains r.person_id = false :=
          contains_false_iff.mpr hnotin
        rw [hcf]
        rfl
      rw [drawCtx_eligible] at hpe
      have h5 := eligible_mem hpe
      have hemw := h5.2.2.1
      rw [drawCtx_emw] at hemw
      rw [← hpid] at hemw
      exact absurd (contains_true_iff.mpr hin_emw)
        (by rw [hemw]; exact Bool.noConfusion)
  · intro x hx hmem
    unfold excluded_must_win_set at hmem
    rw [List.mem_filter] at hmem
    have h2 := hmem.2
    simp only [Bool.not_eq_eq_eq_not, Bool.not_true] at h2
    exact (contains_false_iff.mp h2) hx

/-- C5 witness: a person reserved for another prize (in
`global_must_win` only) at a concrete call. -/
theorem C5_exclusion_correctness_witness :
    (∀ sel stF, draw_prize ⟨"P1", "G", 1, true, true, true, []⟩
        [⟨"A", "Alice", "D"⟩, ⟨"B", "Bob", "D"⟩] ⟨[], []⟩ ["B"] [] false none none
        none defaultRng "t0" = .ok (sel, stF) →
      ∀ r ∈ sel, r.source = "random" → r.person_id ∈ ["B"] →
        r.person_id ∈ ([] : List String)) ∧
    (∀ x ∈ ([] : List String),
      x ∉ excluded_must_win_set ⟨"P1", "G", 1, true, true, true, []⟩ ["B"]) :=
  C5_exclusion_correctness ⟨"P1", "G", 1, true, true, true, []⟩
    [⟨"A", "Alice", "D"⟩, ⟨"B", "Bob", "D"⟩] ⟨[], []⟩ ["B"] [] false none none none
    defaultRng "t0" rfl defaultRng_wf

/-- C4: if the quota invariant holds before the call, then after any
`draw_prize` call (simple or constrained, with or without a
`draw_count` cap) the number of newly selected winners is at most the
remaining slots computed at the start, and the invariant still holds;
a raising call preserves the invariant as well. -/
theorem C4_quota_invariant (prize : PrizeConfig) (people : List Person) (st0 : DrawState)
    (gmw exids : List String) (inc : Bool) (range : Option (Option Int × Option Int))
    (prizesArg : Option (List PrizeConfig)) (dc : Option Int) (rng : Rng) (now : String)
    (hwf : rng.Wf)
    (hinv : ((getPrizeWinners st0 prize.prize_id).length : Int) ≤ prize.count) :
    (∀ sel stF, draw_prize prize people st0 gmw exids inc range prizesArg dc rng now =
        .ok (sel, stF) →
      (sel.length : Int) ≤
        prize.count - ((getPrizeWinners st0 prize.prize_id).length : Int) ∧
      ((getPrizeWinners stF prize.prize_id).length : Int) ≤ prize.count) ∧
    (∀ msg stE, draw_prize prize people st0 gmw exids inc range prizesArg dc rng now =
        .error (msg, stE) →
      ((getPrizeWinners stE prize.prize_id).length : Int) ≤ prize.count) := by
  constructor
  · intro sel stF h
    obtain ⟨stP, hcommit, _, _, hlk, _, hlen, _, _⟩ := draw_prize_ok_props prize people
      st0 gmw exids inc range prizesArg dc rng now hwf h
    have hr : (drawCtx prize people st0 gmw exids inc dc now).remaining =
        min (drawCtx prize people st0 gmw exids inc dc now).remaining0
          (dc.getD (drawCtx prize people st0 gmw exids inc dc now).remaining0) :=
      drawCtx_remaining prize people st0 gmw exids inc dc now
    have hr0 : (drawCtx prize people st0 gmw exids inc dc now).remaining0 =
        prize.count - ((getPrizeWinners st0 prize.prize_id).length : Int) := by
      rw [drawCtx_remaining0, sdp_get]
    have hsel : (sel.length : Int) ≤
        prize.count - ((getPrizeWinners st0 prize.prize_id).length : Int) := by
      rw [hr, hr0] at hlen
      cases dc with
      | none =>
        simp only [Option.getD_none] at hlen
        omega
      | some n =>
        simp only [Option.getD_some] at hlen
        omega
    refine ⟨hsel, ?_⟩
    rw [hcommit, commit_get_self stP prize.prize_id sel hlk, List.length_append,
      List.length_map]
    push_cast
    omega
  · intro msg stE h
    obtain ⟨_, _, h3⟩ := draw_prize_error_props prize people st0 gmw exids inc range
      prizesArg dc rng now h
    unfold getPrizeWinners
    cases hl : stE.prizes.lookup prize.prize_id with
    | none =>
      simp only [Option.getD_none, List.length_nil]
      omega
    | some w =>
      rcases h3 prize.prize_id w hl with h4 | h5
      · have hval : getPrizeWinners st0 prize.prize_id = w := by
          unfold getPrizeWinners
          rw [h4]
          rfl
        rw [← hval]
        exact hinv
      · rw [h5.1]
        simp only [Option.getD_some, List.length_nil]
        omega

/-- C4 witness: the quota bound at a concrete two-person draw. -/
theorem C4_quota_invariant_witness :
    (∀ sel stF, draw_prize ⟨"P1", "G", 1, true, true, true, []⟩ [⟨"A", "Alice", "D"⟩]
        ⟨[], []⟩ [] [] false none none none defaultRng "t0" = .ok (sel, stF) →
      (sel.length : Int) ≤ 1 -
        ((getPrizeWinners ⟨[], []⟩ "P1").length : Int) ∧
      ((getPrizeWinners stF "P1").length : Int) ≤ 1) ∧
    (∀ msg stE, draw_prize ⟨"P1", "G", 1, true, true, true, []⟩ [⟨"A", "Alice", "D"⟩]
        ⟨[], []⟩ [] [] false none none none defaultRng "t0" = .error (msg, stE) →
      ((getPrizeWinners stE "P1").length : Int) ≤ 1) :=
  C4_quota_invariant ⟨"P1", "G", 1, true, true, true, []⟩ [⟨"A", "Alice", "D"⟩]
    ⟨[], []⟩ [] [] false none none none defaultRng "t0" defaultRng_wf (by decide)

/-- C2 counterexample: with `must_win_ids = ["A", "A"]` (a repeated
id, which the claim explicitly includes) a single call selects the
same person twice for the same prize: the guaranteed loop checks the
worklist id only against previous winners, not against this call's
own selections. -/
theorem C2_no_double_win_counterexample :
    draw_prize ⟨"P1", "G", 2, true, true, true, ["A", "A"]⟩ [⟨"A", "Alice", "D"⟩]
      ⟨[], []⟩ ["A"] [] false none none none defaultRng "t0" =
      .ok ([⟨"t0", "P1", "G", "A", "Alice", "D", "must_win"⟩,
            ⟨"t0", "P1", "G", "A", "Alice", "D", "must_win"⟩],
        ⟨[⟨"t0", "P1", "G", "A", "Alice", "D", "must_win"⟩,
          ⟨"t0", "P1", "G", "A", "Alice", "D", "must_win"⟩],
         [("P1", ["A", "A"])]⟩) ∧
    ¬(["A", "A"] : List String).Nodup := by
  exact ⟨rfl, by decide⟩

/-- C2 (amended): provided the roster ids are distinct and — the
amendment — the prize's `must_win_ids` list has no duplicates, a call
never selects the same person twice for the same prize, and the
per-prize winner lists keep their no-duplicate invariant, on success
and on error alike. -/
theorem C2_no_double_win_amended (prize : PrizeConfig) (people : List Person)
    (st0 : DrawState) (gmw exids : List String) (inc : Bool)
    (range : Option (Option Int × Option Int)) (prizesArg : Option (List PrizeConfig))
    (dc : Option Int) (rng : Rng) (now : String)
    (hwf : rng.Wf)
    (hpeople : (people.map (fun p => p.person_id)).Nodup)
    (hmwnd : prize.must_win_ids.Nodup)
    (hst : ∀ q, (getPrizeWinners st0 q).Nodup) :
    (∀ sel stF, draw_prize prize people st0 gmw exids inc range prizesArg dc rng now =
        .ok (sel, stF) →
      (sel.map (fun r => r.person_id)).Nodup ∧
      ∀ q, (getPrizeWinners stF q).Nodup) ∧
    (∀ msg stE, draw_prize prize people st0 gmw exids inc range prizesArg dc rng now =
        .error (msg, stE) →
      ∀ q, (getPrizeWinners stE q).Nodup) := by
  have hepw_eq : (drawCtx prize people st0 gmw exids inc dc now).existing_prize_winners =
      getPrizeWinners st0 prize.prize_id := by
    rw [drawCtx_epw, sdp_get]
  constructor
  · intro sel stF h
    obtain ⟨stP, hcommit, _, hget, hlk, hinvP, _, hshape, hnd⟩ := draw_prize_ok_props
      prize people st0 gmw exids inc range prizesArg dc rng now hwf h
    have hselnd : (sel.map (fun r => r.person_id)).Nodup := hnd hpeople hmwnd
    refine ⟨hselnd, ?_⟩
    intro q
    by_cases hq : q = prize.prize_id
    · subst hq
      rw [hcommit, commit_get_self stP prize.prize_id sel hlk]
      rw [List.nodup_append]
      refine ⟨hst prize.prize_id, hselnd, ?_⟩
      intro x hx1 hx2
      rw [List.mem_map] at hx2
      obtain ⟨r, hr, hxr⟩ := hx2
      rcases hshape r hr with h1 | h2
      · have hnot := h1.2.2.1
        rw [hepw_eq] at hnot
        rw [← hxr] at hx1
        exact hnot hx1
      · obtain ⟨_, p, hpe, _, hpr⟩ := h2
        rw [drawCtx_eligible] at hpe
        have h5 := eligible_mem hpe
        have hepc := h5.2.2.2.1
        rw [hepw_eq] at hepc
        have hxp : x = p.person_id := by
          rw [← hxr, hpr]
          rfl
        rw [hxp] at hx1
        exact (contains_false_iff.mp hepc) hx1
    · rw [hcommit, commit_get_other stP prize.prize_id q sel hq, hget]
      exact hst q
  · intro msg stE h
    obtain ⟨_, _, h3⟩ := draw_prize_error_props prize people st0 gmw exids inc range
      prizesArg dc rng now h
    intro q
    unfold getPrizeWinners
    cases hl : stE.prizes.lookup q with
    | none => simp
    | some w =>
      rcases h3 q w hl with h4 | h5
      · have hval : getPrizeWinners st0 q = w := by
          unfold getPrizeWinners
          rw [h4]
          rfl
        rw [← hval]
        exact hst q
      · rw [h5.1]
        simp

/-- C2 witness: the amended claim at a concrete draw. -/
theorem C2_no_double_win_amended_witness :
    (∀ sel stF, draw_prize ⟨"P1", "G", 2, true, true, true, ["A"]⟩
        [⟨"A", "Alice", "D"⟩, ⟨"B", "Bob", "D"⟩] ⟨[], []⟩ ["A"] [] false none none
        none defaultRng "t0" = .ok (sel, stF) →
      (sel.map (fun r => r.person_id)).Nodup ∧
      ∀ q, (getPrizeWinners stF q).Nodup) ∧
    (∀ msg stE, draw_prize ⟨"P1", "G", 2, true, true, true, ["A"]⟩
        [⟨"A", "Alice", "D"⟩, ⟨"B", "Bob", "D"⟩] ⟨[], []⟩ ["A"] [] false none none
        none defaultRng "t0" = .error (msg, stE) →
      ∀ q, (getPrizeWinners stE q).Nodup) :=
  C2_no_double_win_amended ⟨"P1", "G", 2, true, true, true, ["A"]⟩
    [⟨"A", "Alice", "D"⟩, ⟨"B", "Bob", "D"⟩] ⟨[], []⟩ ["A"] [] false none none none
    defaultRng "t0" defaultRng_wf (by decide) (by decide)
    (fun q => by simp [getPrizeWinners, List.lookup])

/-- C8: in simple mode (no `excluded_winner_range`, or
`include_excluded`, or no `prizes` list), with a valid `draw_count`,
when the random pool (eligible people minus this call's selected ids)
is smaller than the remaining slot budget, the call does not raise: it
returns with exactly pool-size many `"random"` records. -/
theorem C8_simple_mode_soft (prize : PrizeConfig) (people : List Person) (st0 : DrawState)
    (gmw exids : List String) (inc : Bool) (range : Option (Option Int × Option Int))
    (prizesArg : Option (List PrizeConfig)) (dc : Option Int) (rng : Rng) (now : String)
    (hwf : rng.Wf)
    (hmode : range = none ∨ inc = true ∨ prizesArg = none)
    (hdc : ∀ n, dc = some n → 0 ≤ n)
    (hpool : (((drawCtx prize people st0 gmw exids inc dc now).eligible_people.filter
        (fun p => !((drawCtx prize people st0 gmw exids inc dc now).selected_ids1.contains
          p.person_id))).length : Int) <
      (drawCtx prize people st0 gmw exids inc dc now).remaining2) :
    ∃ sel stF, draw_prize prize people st0 gmw exids inc range prizesArg dc rng now =
        .ok (sel, stF) ∧
      ((sel.filter (fun r => r.source == "random")).length : Int) =
        (((drawCtx prize people st0 gmw exids inc dc now).eligible_people.filter
          (fun p => !((drawCtx prize people st0 gmw exids inc dc now
            ).selected_ids1.contains p.person_id))).length : Int) := by
  set c := drawCtx prize people st0 gmw exids inc dc now with hc
  have hC : c.remaining2 > 0 := by
    have hge : (0 : Int) ≤ ((c.eligible_people.filter
        (fun p => !(c.selected_ids1.contains p.person_id))).length : Int) :=
      Int.natCast_nonneg _
    omega
  have hrem2 : c.remaining2 = c.remaining - (c.selected1.length : Int) := by
    rw [hc]
    exact drawCtx_remaining2 prize people st0 gmw exids inc dc now
  have hr : c.remaining = min c.remaining0 (dc.getD c.remaining0) := by
    rw [hc]
    exact drawCtx_remaining prize people st0 gmw exids inc dc now
  have hA : ¬(c.remaining0 ≤ 0) := by
    intro hle
    have h1 : c.remaining ≤ c.remaining0 := by
      rw [hr]
      exact min_le_left _ _
    have h2 : (0 : Int) ≤ (c.selected1.length : Int) := Int.natCast_nonneg _
    omega
  have hB : ¬((dc.getD 0 : Int) < 0) := by
    cases dc with
    | none => simp
    | some n =>
      have hn := hdc n rfl
      simp only [Option.getD_some]
      omega
  have key : draw_prize prize people st0 gmw exids inc range prizesArg dc rng now =
      .ok (c.selected1 ++ simplePhase now prize c.eligible_people c.selected_ids1
          c.remaining2 rng,
        commitState c.st1 prize.prize_id (c.selected1 ++ simplePhase now prize
          c.eligible_people c.selected_ids1 c.remaining2 rng)) := by
    unfold draw_prize
    simp only []
    rw [← hc, if_neg hA, if_neg hB, if_pos hC]
    rcases hmode with hm | hm | hm
    · subst hm
      simp only [commitResult]
    · subst hm
      cases range with
      | none => simp only [commitResult]
      | some rr =>
        obtain ⟨rmin, rmax⟩ := rr
        cases prizesArg with
        | none => simp only [commitResult]
        | some ps => simp only [commitResult]
    · subst hm
      cases range with
      | none => simp only [commitResult]
      | some rr =>
        obtain ⟨rmin, rmax⟩ := rr
        cases inc with
        | true => simp only [commitResult]
        | false => simp only [commitResult]
  refine ⟨_, _, key, ?_⟩
  rw [List.filter_append, List.length_append]
  have hs1 : c.selected1 = (mustWinPhase now prize people c.existing_prize_winners
      c.exclude_excluded_list exids c.remaining prize.must_win_ids [] 0).1 := by
    rw [hc]
    exact drawCtx_selected1 prize people st0 gmw exids inc dc now
  have h1 : c.selected1.filter (fun r => r.source == "random") = [] := by
    rw [List.filter_eq_nil_iff]
    intro r hr
    rw [hs1] at hr
    rcases mwp_shape now prize people c.existing_prize_winners c.exclude_excluded_list
      exids c.remaining prize.must_win_ids [] 0 hr with h2 | h3
    · exact absurd h2 (List.not_mem_nil r)
    · rw [h3.1]
      decide
  obtain ⟨hl, hm2, _⟩ := sp_spec now prize c.eligible_people c.selected_ids1
    c.remaining2 hwf (le_of_lt hC)
  have h2 : (simplePhase now prize c.eligible_people c.selected_ids1 c.remaining2
      rng).filter (fun r => r.source == "random") =
      simplePhase now prize c.eligible_people c.selected_ids1 c.remaining2 rng := by
    rw [List.filter_eq_self]
    intro r hr
    obtain ⟨p, _, _, hpr⟩ := hm2 r hr
    rw [hpr]
    rfl
  rw [h1, h2]
  simp only [List.length_nil, Nat.zero_add, Nat.cast_add, Nat.cast_zero, zero_add]
  omega

/-- C8 witness: one eligible person, two open slots — the call
returns one random record and does not raise. -/
theorem C8_simple_mode_soft_witness :
    ∃ sel stF, draw_prize ⟨"P1", "G", 2, true, true, true, []⟩ [⟨"A", "Alice", "D"⟩]
        ⟨[], []⟩ [] [] false none none none defaultRng "t0" = .ok (sel, stF) ∧
      ((sel.filter (fun r => r.source == "random")).length : Int) =
        (((drawCtx ⟨"P1", "G", 2, true, true, true, []⟩ [⟨"A", "Alice", "D"⟩] ⟨[], []⟩
          [] [] false none "t0").eligible_people.filter
          (fun p => !((drawCtx ⟨"P1", "G", 2, true, true, true, []⟩ [⟨"A", "Alice", "D"⟩]
            ⟨[], []⟩ [] [] false none "t0").selected_ids1.contains
              p.person_id))).length : Int) :=
  C8_simple_mode_soft ⟨"P1", "G", 2, true, true, true, []⟩ [⟨"A", "Alice", "D"⟩]
    ⟨[], []⟩ [] [] false none none none defaultRng "t0" defaultRng_wf (Or.inl rfl)
    (fun n h => by cases h) (by decide)

/-- C3 counterexample: no winners recorded yet, a non-blocklist
candidate exists, yet the call awards both of its two random-phase
slots to blocklisted people — the code's cap carries a third conjunct
(`min_excluded_allowed < remaining`) the claim omits, and here the
blocklist minimum (`min_excluded = 2`) forces all slots. -/
theorem C3_fairness_cap_counterexample :
    (cparams ["E1", "E2"]
      (drawCtx ⟨"P1", "G", 2, true, true, false, []⟩
        [⟨"E1", "e1", "D"⟩, ⟨"E2", "e2", "D"⟩, ⟨"N1", "n1", "D"⟩] ⟨[], []⟩ []
        ["E1", "E2"] false none "t0").eligible_people
      (drawCtx ⟨"P1", "G", 2, true, true, false, []⟩
        [⟨"E1", "e1", "D"⟩, ⟨"E2", "e2", "D"⟩, ⟨"N1", "n1", "D"⟩] ⟨[], []⟩ []
        ["E1", "E2"] false none "t0").selected_ids1
      (drawCtx ⟨"P1", "G", 2, true, true, false, []⟩
        [⟨"E1", "e1", "D"⟩, ⟨"E2", "e2", "D"⟩, ⟨"N1", "n1", "D"⟩] ⟨[], []⟩ []
        ["E1", "E2"] false none "t0").excluded_selected_count
      (drawCtx ⟨"P1", "G", 2, true, true, false, []⟩
        [⟨"E1", "e1", "D"⟩, ⟨"E2", "e2", "D"⟩, ⟨"N1", "n1", "D"⟩] ⟨[], []⟩ []
        ["E1", "E2"] false none "t0").remaining2
      (some 2) none [⟨"P1", "G", 2, true, true, false, []⟩]
      (drawCtx ⟨"P1", "G", 2, true, true, false, []⟩
        [⟨"E1", "e1", "D"⟩, ⟨"E2", "e2", "D"⟩, ⟨"N1", "n1", "D"⟩] ⟨[], []⟩ []
        ["E1", "E2"] false none "t0").st1).existing_applicable_total = 0 ∧
    (cparams ["E1", "E2"]
      (drawCtx ⟨"P1", "G", 2, true, true, false, []⟩
        [⟨"E1", "e1", "D"⟩, ⟨"E2", "e2", "D"⟩, ⟨"N1", "n1", "D"⟩] ⟨[], []⟩ []
        ["E1", "E2"] false none "t0").eligible_people
      (drawCtx ⟨"P1", "G", 2, true, true, false, []⟩
        [⟨"E1", "e1", "D"⟩, ⟨"E2", "e2", "D"⟩, ⟨"N1", "n1", "D"⟩] ⟨[], []⟩ []
        ["E1", "E2"] false none "t0").selected_ids1
      (drawCtx ⟨"P1", "G", 2, true, true, false, []⟩
        [⟨"E1", "e1", "D"⟩, ⟨"E2", "e2", "D"⟩, ⟨"N1", "n1", "D"⟩] ⟨[], []⟩ []
        ["E1", "E2"] false none "t0").excluded_selected_count
      (drawCtx ⟨"P1", "G", 2, true, true, false, []⟩
        [⟨"E1", "e1", "D"⟩, ⟨"E2", "e2", "D"⟩, ⟨"N1", "n1", "D"⟩] ⟨[], []⟩ []
        ["E1", "E2"] false none "t0").remaining2
      (some 2) none [⟨"P1", "G", 2, true, true, false, []⟩]
      (drawCtx ⟨"P1", "G", 2, true, true, false, []⟩
        [⟨"E1", "e1", "D"⟩, ⟨"E2", "e2", "D"⟩, ⟨"N1", "n1", "D"⟩] ⟨[], []⟩ []
        ["E1", "E2"] false none "t0").st1).non_excluded_pool ≠ [] ∧
    draw_prize ⟨"P1", "G", 2, true, true, false, []⟩
      [⟨"E1", "e1", "D"⟩, ⟨"E2", "e2", "D"⟩, ⟨"N1", "n1", "D"⟩] ⟨[], []⟩ []
      ["E1", "E2"] false (some (some 2, none))
      (some [⟨"P1", "G", 2, true, true, false, []⟩]) none defaultRng "t0" =
      .ok ([⟨"t0", "P1", "G", "E1", "e1", "D", "random"⟩,
            ⟨"t0", "P1", "G", "E2", "e2", "D", "random"⟩],
        ⟨[⟨"t0", "P1", "G", "E1", "e1", "D", "random"⟩,
          ⟨"t0", "P1", "G", "E2", "e2", "D", "random"⟩],
         [("P1", ["E1", "E2"])]⟩) ∧
    (([(⟨"t0", "P1", "G", "E1", "e1", "D", "random"⟩ : WinnerRecord),
       ⟨"t0", "P1", "G", "E2", "e2", "D", "random"⟩].filter
        (fun r => r.source == "random" &&
          (["E1", "E2"] : List String).contains r.person_id)).length : Int) =
      (drawCtx ⟨"P1", "G", 2, true, true, false, []⟩
        [⟨"E1", "e1", "D"⟩, ⟨"E2", "e2", "D"⟩, ⟨"N1", "n1", "D"⟩] ⟨[], []⟩ []
        ["E1", "E2"] false none "t0").remaining2 := by
  exact ⟨by decide, by decide, rfl, by decide⟩

/-- C3 (amended): in constrained mode, whenever no global winners are
recorded for any prize in scope, the non-blocklist pool is non-empty,
and — the amendment, the code's third conjunct — the minimum number of
blocklist picks this call must make is strictly below the random-phase
budget, a successful call makes at most `remaining' - 1` random-phase
blocklist picks. -/
theorem C3_fairness_cap_amended (prize : PrizeConfig) (people : List Person)
    (st0 : DrawState) (gmw exids : List String) (rmin rmax : Option Int)
    (ps : List PrizeConfig) (dc : Option Int) (rng : Rng) (now : String)
    (hwf : rng.Wf)
    (h0 : (cparams exids
        (drawCtx prize people st0 gmw exids false dc now).eligible_people
        (drawCtx prize people st0 gmw exids false dc now).selected_ids1
        (drawCtx prize people st0 gmw exids false dc now).excluded_selected_count
        (drawCtx prize people st0 gmw exids false dc now).remaining2
        rmin rmax ps
        (drawCtx prize people st0 gmw exids false dc now).st1
      ).existing_applicable_total = 0)
    (h1 : (cparams exids
        (drawCtx prize people st0 gmw exids false dc now).eligible_people
        (drawCtx prize people st0 gmw exids false dc now).selected_ids1
        (drawCtx prize people st0 gmw exids false dc now).excluded_selected_count
        (drawCtx prize people st0 gmw exids false dc now).remaining2
        rmin rmax ps
        (drawCtx prize people st0 gmw exids false dc now).st1
      ).non_excluded_pool ≠ [])
    (h2 : (cparams exids
        (drawCtx prize people st0 gmw exids false dc now).eligible_people
        (drawCtx prize people st0 gmw exids false dc now).selected_ids1
        (drawCtx prize people st0 gmw exids false dc now).excluded_selected_count
        (drawCtx prize people st0 gmw exids false dc now).remaining2
        rmin rmax ps
        (drawCtx prize people st0 gmw exids false dc now).st1
      ).min_excluded_allowed <
      (drawCtx prize people st0 gmw exids false dc now).remaining2) :
    ∀ sel stF, draw_prize prize people st0 gmw exids false (some (rmin, rmax)) (some ps)
        dc rng now = .ok (sel, stF) →
      ((sel.filter (fun r => r.source == "random" &&
          exids.contains r.person_id)).length : Int) ≤
        (drawCtx prize people st0 gmw exids false dc now).remaining2 - 1 := by
  intro sel stF h
  set c := drawCtx prize people st0 gmw exids false dc now with hc
  have hmin0 := cparams_min_allowed_nonneg exids c.eligible_people c.selected_ids1
    c.excluded_selected_count c.remaining2 rmin rmax ps c.st1
  have hrem2pos : 0 < c.remaining2 := by omega
  unfold draw_prize at h
  simp only [] at h
  rw [← hc] at h
  by_cases hA : c.remaining0 ≤ 0
  · rw [if_pos hA] at h
    rw [Except.ok.injEq, Prod.mk.injEq] at h
    rw [← h.1]
    simp only [List.filter_nil, List.length_nil, Int.natCast_zero]
    omega
  rw [if_neg hA] at h
  by_cases hB : (dc.getD 0 : Int) < 0
  · rw [if_pos hB] at h
    exact absurd h (by simp)
  rw [if_neg hB] at h
  obtain ⟨sel3, stP0, hph3, hsel, hstF⟩ := commitResult_ok h
  rw [if_pos hrem2pos] at hph3
  rw [constrainedPhase] at hph3
  have hmaxr := cparams_max_allowed_le_remaining exids c.eligible_people c.selected_ids1
    c.excluded_selected_count c.remaining2 rmin rmax ps c.st1
  have hmaxp := cparams_max_allowed_le_pool exids c.eligible_people c.selected_ids1
    c.excluded_selected_count c.remaining2 rmin rmax ps c.st1
  have hexc : ∀ p ∈ (cparams exids c.eligible_people c.selected_ids1
      c.excluded_selected_count c.remaining2 rmin rmax ps c.st1).excluded_pool,
      exids.contains p.person_id = true := by
    intro p hp
    rw [cparams_excluded_pool] at hp
    rw [List.mem_filter] at hp
    have hp2 := hp.2
    simp only [Bool.and_eq_true] at hp2
    exact hp2.1
  have hnonc : ∀ p ∈ (cparams exids c.eligible_people c.selected_ids1
      c.excluded_selected_count c.remaining2 rmin rmax ps c.st1).non_excluded_pool,
      exids.contains p.person_id = false := by
    intro p hp
    rw [cparams_non_excluded_pool] at hp
    rw [List.mem_filter] at hp
    have hp2 := hp.2
    simp only [Bool.and_eq_true, Bool.not_eq_eq_eq_not, Bool.not_true] at hp2
    exact hp2.1
  obtain ⟨hst2, hlen3, hmem3, hnd3, hfilt3⟩ := cc_ok_spec now prize exids c.remaining2
    rng _ hwf hmin0 hmaxr hmaxp hexc hnonc hph3
  have hcap := cparams_max_allowed_cap exids c.eligible_people c.selected_ids1
    c.excluded_selected_count c.remaining2 rmin rmax ps c.st1 h0
    (fun hie => h1 (List.isEmpty_iff.mp hie)) h2
  have hs1 : c.selected1 = (mustWinPhase now prize people c.existing_prize_winners
      c.exclude_excluded_list exids c.remaining prize.must_win_ids [] 0).1 := by
    rw [hc]
    exact drawCtx_selected1 prize people st0 gmw exids false dc now
  have hmw0 : c.selected1.filter (fun r => r.source == "random" &&
      exids.contains r.person_id) = [] := by
    rw [List.filter_eq_nil_iff]
    intro r hr
    rw [hs1] at hr
    rcases mwp_shape now prize people c.existing_prize_winners c.exclude_excluded_list
      exids c.remaining prize.must_win_ids [] 0 hr with hsh | hsh
    · exact absurd hsh (List.not_mem_nil r)
    · rw [hsh.1]
      simp
  have hcongr : sel3.filter (fun r => r.source == "random" &&
      exids.contains r.person_id) =
      sel3.filter (fun r => exids.contains r.person_id) := by
    apply List.filter_congr
    intro r hr
    obtain ⟨p, _, hpr⟩ := hmem3 r hr
    rw [hpr]
    show ((("random" : String) == "random") && exids.contains p.person_id) =
      exids.contains p.person_id
    rw [show (("random" : String) == "random") = true from rfl, Bool.true_and]
  rw [hsel, List.filter_append, List.length_append, hmw0, hcongr]
  have hfin : ((([] : List WinnerRecord).length +
      (sel3.filter (fun r => exids.contains r.person_id)).length : Nat) : Int) =
      ((sel3.filter (fun r => exids.contains r.person_id)).length : Int) := by
    norm_num
  rw [hfin]
  omega

/-- C3 witness: the amended cap, instantiated at a concrete
constrained draw where the blocklist minimum does not force all slots
and the call succeeds with both picks from the non-blocklist pool. -/
theorem C3_fairness_cap_amended_witness :
    ((([(⟨"t0", "P1", "G", "N1", "n1", "D", "random"⟩ : WinnerRecord),
        ⟨"t0", "P1", "G", "N2", "n2", "D", "random"⟩].filter
        (fun r => r.source == "random" &&
          (["E1", "E2"] : List String).contains r.person_id)).length : Int) ≤
      (drawCtx ⟨"P1", "G", 2, true, true, false, []⟩
        [⟨"E1", "e1", "D"⟩, ⟨"E2", "e2", "D"⟩, ⟨"N1", "n1", "D"⟩, ⟨"N2", "n2", "D"⟩]
        ⟨[], []⟩ [] ["E1", "E2"] false none "t0").remaining2 - 1) := by
  have h : draw_prize ⟨"P1", "G", 2, true, true, false, []⟩
      [⟨"E1", "e1", "D"⟩, ⟨"E2", "e2", "D"⟩, ⟨"N1", "n1", "D"⟩, ⟨"N2", "n2", "D"⟩]
      ⟨[], []⟩ [] ["E1", "E2"] false (some (none, none))
      (some [⟨"P1", "G", 2, true, true, false, []⟩]) none defaultRng "t0" =
      .ok ([⟨"t0", "P1", "G", "N1", "n1", "D", "random"⟩,
            ⟨"t0", "P1", "G", "N2", "n2", "D", "random"⟩],
        ⟨[⟨"t0", "P1", "G", "N1", "n1", "D", "random"⟩,
          ⟨"t0", "P1", "G", "N2", "n2", "D", "random"⟩],
         [("P1", ["N1", "N2"])]⟩) := rfl
  exact C3_fairness_cap_amended ⟨"P1", "G", 2, true, true, false, []⟩
    [⟨"E1", "e1", "D"⟩, ⟨"E2", "e2", "D"⟩, ⟨"N1", "n1", "D"⟩, ⟨"N2", "n2", "D"⟩]
    ⟨[], []⟩ [] ["E1", "E2"] none none [⟨"P1", "G", 2, true, true, false, []⟩] none
    defaultRng "t0" defaultRng_wf (by decide) (by decide) (by decide) _ _ h
